import Mathlib

/-!
Verification development for the camp_calendar reconciliation engine
(`src/camp_sync/core.py`).  The Python code is shallowly embedded: datetimes
become wall-clock minute counts with an optional UTC offset, Python dicts
become insertion-ordered association lists with overwrite-in-place semantics
(CPython 3.7+ dict behaviour), and the Google-calendar backend becomes an
explicit list of raw events transformed by an action list.
-/

/- ### Python temporal values -/

/-- A Python `datetime.datetime`: wall-clock minutes since the epoch as read on
the clock face, plus an optional UTC offset in minutes (`tz = none` models a
naive datetime). -/
structure PyDateTime where
  clock : Int
  tz : Option Int
  deriving DecidableEq, Repr

/-- A `datetime.date` or `datetime.datetime`, the union handled by
`normalize_datetime` and produced by iCal parsing.  A pure date is a day
index. -/
inductive PyTemporal where
  | date (day : Int)
  | dateTime (dt : PyDateTime)
  deriving DecidableEq, Repr

def minutesPerDay : Int := 1440

/-- `normalize_datetime` (core.py:1368): a pure date is combined with
`time(0, 0)` (giving a naive datetime at midnight) and any naive datetime gets
`tzinfo=datetime.timezone.utc` attached with its clock fields unchanged; an
aware datetime is returned as-is. -/
def normalize_datetime : PyTemporal → PyDateTime
  | .date d => { clock := d * minutesPerDay, tz := some 0 }
  | .dateTime dt => if dt.tz = none then { dt with tz := some 0 } else dt

/-- The instant an aware datetime denotes (UTC minutes): clock minus offset.
Python compares aware datetimes by this value. -/
def PyDateTime.instant (dt : PyDateTime) : Int := dt.clock - dt.tz.getD 0

/-- `strftime("%Y-%m-%d")`: the wall-clock date of a date or datetime
(day index; offsets are ignored, as Python formats the clock fields). -/
def PyTemporal.wallDate : PyTemporal → Int
  | .date d => d
  | .dateTime dt => dt.clock.fdiv minutesPerDay

/-- Whether the value is a timezone-aware datetime. -/
def PyTemporal.tzAware : PyTemporal → Bool
  | .date _ => false
  | .dateTime dt => dt.tz.isSome

/- ### Python truthiness and string helpers -/

/-- Truthiness of an optional string (`if x:` in Python): `None` and the empty
string are falsy. -/
def pyTruthy : Option String → Bool
  | none => false
  | some s => !(s = "")

/-- Python `str.capitalize()` for the source names used by the engine. -/
def pyCapitalize (s : String) : String :=
  match s.data with
  | [] => ""
  | c :: cs => String.mk (c.toUpper :: cs.map Char.toLower)

/-- Leftmost-match substring test on character lists (Python `needle in hay`). -/
def hasSub (needle : List Char) : List Char → Bool
  | [] => needle.isEmpty
  | c :: t => needle.isPrefixOf (c :: t) || hasSub needle t

/-- Python `needle in hay` on strings. -/
def pySub (needle hay : String) : Bool := hasSub needle.data hay.data

/- ### Python dicts as insertion-ordered association lists -/

/-- A Python dict: keys kept in insertion order, assignment overwrites in
place (CPython 3.7+ semantics). -/
abbrev PyDict (α β : Type) := List (α × β)

/-- `d.get(k)` / `d[k]`. -/
def dictGet {α β : Type} [DecidableEq α] (d : PyDict α β) (k : α) : Option β :=
  match d with
  | [] => none
  | (k', v) :: t => if k' = k then some v else dictGet t k

/-- `d[k] = v`: overwrite in place, otherwise append. -/
def dictSet {α β : Type} [DecidableEq α] (d : PyDict α β) (k : α) (v : β) :
    PyDict α β :=
  match d with
  | [] => [(k, v)]
  | (k', v') :: t => if k' = k then (k, v) :: t else (k', v') :: dictSet t k v

/-- The key list of a dict. -/
def dictKeys {α β : Type} (d : PyDict α β) : List α := d.map Prod.fst

/-- `{**a, **b}`: start from `a` and assign every item of `b` in order. -/
def dictMerge {α β : Type} [DecidableEq α] (a b : PyDict α β) : PyDict α β :=
  b.foldl (fun m kv => dictSet m kv.1 kv.2) a

/- ### The common event record -/

/-- `CalendarEvent` (core.py:238): the common unit for events from HipCamp,
Checkfront and Google Calendar. -/
structure CalendarEvent where
  start_time : PyTemporal
  end_time : PyTemporal
  summary : String
  description : Option String
  source : String
  source_id : Option String
  google_event_id : Option String
  deriving DecidableEq, Repr

/-- The `(source, source_id)` identity key of a tracked event. -/
def eventKey (e : CalendarEvent) : String × String :=
  (e.source, e.source_id.getD "")

abbrev EvKey := String × String

/- ### iCal feed normalizer (fetch_hipcamp_events, core.py:1024) -/

/-- Leftmost occurrence of `marker` that is followed by at least one digit;
returns the digit run (the semantics of `re.search(marker + r"(\d+)", s)`). -/
def findMarkerDigits (marker : List Char) : List Char → Option (List Char)
  | [] => none
  | c :: t =>
    if marker.isPrefixOf (c :: t) then
      let ds := ((c :: t).drop marker.length).takeWhile Char.isDigit
      if ds.isEmpty then findMarkerDigits marker t else some ds
    else findMarkerDigits marker t

/-- `extract_booking_id` (core.py:1005): `re.search(r"Booking ID: #(\d+)", d)`
on the HipCamp event description; empty descriptions yield `None`. -/
def extract_booking_id (description : String) : Option String :=
  if description = "" then none
  else
    match findMarkerDigits "Booking ID: #".data description.data with
    | none => none
    | some ds => some (String.mk ds)

/-- Does `re.match` of `\s*-\s*\+\d+` succeed at the head of the list?  The
two `\s*` are greedy and the following literals are not whitespace, so
greedy-drop is exact. -/
def phoneSuffixAt (cs : List Char) : Bool :=
  match cs.dropWhile Char.isWhitespace with
  | '-' :: cs2 =>
    match cs2.dropWhile Char.isWhitespace with
    | '+' :: c :: _ => c.isDigit
    | _ => false
  | _ => false

/-- `re.sub(r'\s*-\s*\+\d+.*$', '', s)`: cut the string at the leftmost
position where the phone-suffix pattern matches (the `.*$` removes the rest). -/
def stripPhoneSuffix : List Char → List Char
  | [] => []
  | c :: cs => if phoneSuffixAt (c :: cs) then [] else c :: stripPhoneSuffix cs

/-- Guest info (core.py:1074): first line of the description with any trailing
phone-number suffix removed. -/
def guestInfo (description : String) : String :=
  if description = "" then ""
  else String.mk (stripPhoneSuffix (description.data.takeWhile (fun c => c ≠ '\n')))

/-- Check-in normalization (core.py:1060-1065): the source guards the 14:00
combine (the "2:00 PM check-in" comment) with `isinstance(start_date, vDate)`,
but `event.get("dtstart").dt` is a plain `datetime.date` or
`datetime.datetime` and icalendar's `vDate` is the parser's wrapper class,
never the type of a `.dt` value.  The test is therefore false for every value
the parse can produce, the combine branch is dead code, and the value passes
through unchanged. -/
def hipcampCheckIn (t : PyTemporal) : PyTemporal := t

/-- Check-out normalization (core.py:1067-1072): the same dead
`isinstance(end_date, vDate)` guard around the 12:00 combine (the "12:00 PM
check-out" comment); the value passes through unchanged. -/
def hipcampCheckOut (t : PyTemporal) : PyTemporal := t

/-- `get_site_display_name` (core.py:950): `SITE_DISPLAY_NAMES.get(name, name)`. -/
def get_site_display_name (displayNames : PyDict String String)
    (siteName : String) : String :=
  (dictGet displayNames siteName).getD siteName

/-- One VEVENT of a HipCamp iCal feed as handed over by the iCal parser. -/
structure VEvent where
  description : String
  dtstart : PyTemporal
  dtend : PyTemporal
  deriving DecidableEq, Repr

/-- One entry of `HIPCAMP_ICAL_URLS` together with the outcome of the HTTP
fetch-and-parse for this run; `.error` models a raised
`requests.exceptions.RequestException`. -/
structure FeedSpec where
  site : String
  url : Option String
  fetched : Except Unit (List VEvent)

/-- The per-VEVENT body of the feed loop (core.py:1047): events without an
extractable booking id are dropped, dtstart/dtend pass through the (dead)
check-in/check-out guards unchanged, and the summary is
`"{display_name} - {guest_info}"`. -/
def processVEvent (displayNames : PyDict String String) (site : String)
    (ev : VEvent) : Option CalendarEvent :=
  match extract_booking_id ev.description with
  | none => none
  | some bid =>
    some
      { start_time := hipcampCheckIn ev.dtstart
        end_time := hipcampCheckOut ev.dtend
        summary := get_site_display_name displayNames site ++ " - " ++
          guestInfo ev.description
        description := some ev.description
        source := "hipcamp"
        source_id := some bid
        google_event_id := none }

/-- One feed iteration of `fetch_hipcamp_events`: unset URLs are skipped, a
fetch failure is caught and contributes no events, otherwise every VEVENT is
processed. -/
def processFeed (displayNames : PyDict String String) (f : FeedSpec) :
    List CalendarEvent :=
  if pyTruthy f.url then
    match f.fetched with
    | .error _ => []
    | .ok evs => evs.filterMap (processVEvent displayNames f.site)
  else []

/-- `fetch_hipcamp_events` (core.py:1024): all feeds in order, their events
appended into one list. -/
def fetch_hipcamp_events (displayNames : PyDict String String)
    (feeds : List FeedSpec) : List CalendarEvent :=
  (feeds.map (processFeed displayNames)).flatten

/- ### Google Calendar read-back (get_google_calendar_events, core.py:1098) -/

/-- A raw Google Calendar event as stored by the backend: opaque id, summary,
description, start/end (all-day date or timed datetime) and the private
extended-properties bag. -/
structure RawGEvent where
  gid : String
  summary : String
  description : Option String
  gstart : PyTemporal
  gend : PyTemporal
  props : PyDict String String
  deriving DecidableEq, Repr

/-- Identity recovery from the private metadata bag (core.py:1130): the
`hipcamp_booking_id` key wins over `checkfront_booking_id`; with neither, the
event is `google_calendar` with no source id. -/
def recoverSource (props : PyDict String String) : String × Option String :=
  match dictGet props "hipcamp_booking_id" with
  | some v => ("hipcamp", some v)
  | none =>
    match dictGet props "checkfront_booking_id" with
    | some v => ("checkfront", some v)
    | none => ("google_calendar", none)

/-- Start/end conversion on read-back (core.py:1145): an all-day `date` field
becomes `fromisoformat(f"{d}T00:00:00")`, a naive midnight datetime; a
`dateTime` field is parsed as stored. -/
def readTime : PyTemporal → PyTemporal
  | .date d => .dateTime { clock := d * minutesPerDay, tz := none }
  | .dateTime dt => .dateTime dt

/-- One event of `get_google_calendar_events`: identity recovered from the
metadata bag, times converted, the Google event id always carried. -/
def readBackEvent (r : RawGEvent) : CalendarEvent :=
  { start_time := readTime r.gstart
    end_time := readTime r.gend
    summary := r.summary
    description := r.description
    source := (recoverSource r.props).1
    source_id := (recoverSource r.props).2
    google_event_id := some r.gid }

/-- `get_google_calendar_events` on a backend state. -/
def readBack (raws : List RawGEvent) : List CalendarEvent :=
  raws.map readBackEvent

/- ### Reconciliation engine (sync_events_to_calendar, core.py:1420) -/

/-- Step 1 of the engine (core.py:1460): `existing_events_map` and
`google_event_ids`, built from the calendar read; only events with a truthy
`source_id` are entered, and the Google id only when itself truthy. -/
def buildExistingMaps (existing : List CalendarEvent) :
    PyDict EvKey CalendarEvent × PyDict EvKey String :=
  existing.foldl
    (fun maps e =>
      if pyTruthy e.source_id then
        (dictSet maps.1 (eventKey e) e,
         if pyTruthy e.google_event_id then
           dictSet maps.2 (eventKey e) (e.google_event_id.getD "")
         else maps.2)
      else maps)
    ([], [])

/-- The per-source dict comprehension of step 2 (core.py:1490): key the events
by `(source, source_id)`, keeping only those with a truthy id whose normalized
end time is strictly after `now`. -/
def newSourceMap (source : String) (events : List CalendarEvent)
    (now : PyDateTime) : PyDict EvKey CalendarEvent :=
  events.foldl
    (fun m e =>
      if pyTruthy e.source_id ∧
          now.instant < (normalize_datetime e.end_time).instant then
        dictSet m (source, e.source_id.getD "") e
      else m)
    []

/-- `new_events = {**new_hipcamp_events, **new_checkfront_events}`
(core.py:1503). -/
def newEventsMap (hip cf : List CalendarEvent) (now : PyDateTime) :
    PyDict EvKey CalendarEvent :=
  dictMerge (newSourceMap "hipcamp" hip now) (newSourceMap "checkfront" cf now)

/-- A Google event body as written by the engine (core.py:1585): all-day start
and end dates plus the private metadata bag. -/
structure GBody where
  summary : String
  description : Option String
  startDate : Int
  endDate : Int
  props : PyDict String String
  deriving DecidableEq, Repr

/-- Summary suffixing (core.py:1581): append `" {source.capitalize()}"` when
not already present. -/
def sourceSuffix (summary source : String) : String :=
  if summary.endsWith (" " ++ pyCapitalize source) then summary
  else summary ++ " " ++ pyCapitalize source

/-- The body written for one source event (core.py:1585): dates via
`strftime("%Y-%m-%d")`, private properties `{source}_booking_id` and
`synced_by_script`. -/
def buildBody (source source_id : String) (e : CalendarEvent) : GBody :=
  { summary := sourceSuffix e.summary source
    description := e.description
    startDate := e.start_time.wallDate
    endDate := e.end_time.wallDate
    props := [(source ++ "_booking_id", source_id), ("synced_by_script", "true")] }

/-- The enrichment write (core.py:1652): the Checkfront booking id is added to
the same body dict before the second update. -/
def enrichBody (b : GBody) (cfid : String) : GBody :=
  { b with props := dictSet b.props "checkfront_booking_id" cfid }

/-- The calendar operations the engine issues.  `create` records the backend-
assigned id of the inserted event; `link` is the enrichment update that
attaches a propagated Checkfront booking id. -/
inductive SyncAction where
  | delete (key : EvKey) (gid : String)
  | create (key : EvKey) (gid : String) (body : GBody)
  | update (key : EvKey) (gid : String) (body : GBody)
  | link (key : EvKey) (gid : String) (body : GBody)
  deriving DecidableEq, Repr

/-- Synthetic id assigned by the backend to the n-th inserted event of a run. -/
def freshGid (n : Nat) : String := "gcal-" ++ String.mk (List.replicate n 'x')

/-- Does a Google event id carry the synthetic-id prefix? -/
def hasFreshPrefix (s : String) : Bool := "gcal-".data.isPrefixOf s.data

/-- Deletion pass (core.py:1516): for every tracked calendar event whose key
is absent from `new_events`, delete by stored Google id unless the event has
already ended. -/
def deletionPass (gids : PyDict EvKey String) (nm : PyDict EvKey CalendarEvent)
    (now : PyDateTime) : PyDict EvKey CalendarEvent → List SyncAction
  | [] => []
  | (k, e) :: rest =>
    (if (dictGet nm k).isNone then
      if (normalize_datetime e.end_time).instant ≤ now.instant then []
      else if pyTruthy (dictGet gids k) then
        [SyncAction.delete k ((dictGet gids k).getD "")]
      else []
    else []) ++ deletionPass gids nm now rest

/-- Upsert pass (core.py:1565): per key of `new_events`, update addressed by
the stored Google id when the key is tracked (skipping silently when no id is
stored), otherwise insert; HipCamp events additionally trigger Checkfront
propagation (`prop`), whose truthy result is written back by an enrichment
update.  On update, propagation runs only when the HipCamp id is not already
in the `hipcamp_to_checkfront` mapping. -/
def upsertPass (mapping : List String) (prop : CalendarEvent → Option String)
    (now : PyDateTime) (em : PyDict EvKey CalendarEvent) :
    PyDict EvKey CalendarEvent → PyDict EvKey String → Nat → List SyncAction
  | [], _, _ => []
  | (k, e) :: rest, gids, n =>
    if (normalize_datetime e.end_time).instant ≤ now.instant then
      upsertPass mapping prop now em rest gids n
    else
      let body := buildBody k.1 k.2 e
      if (dictGet em k).isSome then
        if pyTruthy (dictGet gids k) then
          SyncAction.update k ((dictGet gids k).getD "") body ::
            ((if k.1 = "hipcamp" then
                if k.2 ∈ mapping then []
                else if pyTruthy (prop e) then
                  [SyncAction.link k ((dictGet gids k).getD "")
                    (enrichBody body ((prop e).getD ""))]
                else []
              else []) ++ upsertPass mapping prop now em rest gids n)
        else upsertPass mapping prop now em rest gids n
      else
        SyncAction.create k (freshGid n) body ::
          ((if k.1 = "hipcamp" then
              if pyTruthy (prop e) then
                [SyncAction.link k (freshGid n)
                  (enrichBody body ((prop e).getD ""))]
              else []
            else []) ++
            upsertPass mapping prop now em rest (dictSet gids k (freshGid n)) (n + 1))

/-- `sync_events_to_calendar` as the list of calendar operations it issues, in
order: the deletion pass followed by the upsert pass. -/
def runSync (existing hip cf : List CalendarEvent) (now : PyDateTime)
    (mapping : List String) (prop : CalendarEvent → Option String) :
    List SyncAction :=
  deletionPass (buildExistingMaps existing).2 (newEventsMap hip cf now) now
      (buildExistingMaps existing).1 ++
    upsertPass mapping prop now (buildExistingMaps existing).1
      (newEventsMap hip cf now) (buildExistingMaps existing).2 0

/-- The raw event stored by the backend for a written body. -/
def rawOfBody (gid : String) (b : GBody) : RawGEvent :=
  { gid := gid
    summary := b.summary
    description := b.description
    gstart := .date b.startDate
    gend := .date b.endDate
    props := b.props }

/-- Effect of one calendar operation on the backend state: delete removes the
addressed event, insert appends, update and the enrichment update replace the
addressed event's body. -/
def applyAction (raws : List RawGEvent) : SyncAction → List RawGEvent
  | .delete _ gid => raws.filter (fun r => !(r.gid = gid))
  | .create _ gid b => raws ++ [rawOfBody gid b]
  | .update _ gid b => raws.map (fun r => if r.gid = gid then rawOfBody r.gid b else r)
  | .link _ gid b => raws.map (fun r => if r.gid = gid then rawOfBody r.gid b else r)

/-- Apply a run's operations to the backend state in order. -/
def applyActions (raws : List RawGEvent) (acts : List SyncAction) :
    List RawGEvent :=
  acts.foldl applyAction raws

def SyncAction.isCreate : SyncAction → Bool
  | .create _ _ _ => true
  | _ => false

def SyncAction.isDelete : SyncAction → Bool
  | .delete _ _ => true
  | _ => false

def SyncAction.isLink : SyncAction → Bool
  | .link _ _ _ => true
  | _ => false

/-- The Google event id an operation addresses (for `create`, the id the
backend assigns). -/
def SyncAction.gidOf : SyncAction → String
  | .delete _ g => g
  | .create _ g _ => g
  | .update _ g _ => g
  | .link _ g _ => g

/-- The `(source, source_id)` key an operation is for. -/
def SyncAction.keyOf : SyncAction → EvKey
  | .delete k _ => k
  | .create k _ _ => k
  | .update k _ _ => k
  | .link k _ _ => k

def SyncAction.isUpdateFor (k : EvKey) : SyncAction → Bool
  | .update k' _ _ => k' = k
  | _ => false

/-- Number of (unconditional-refresh) UPDATE operations addressed to key `k`. -/
def updatesFor (k : EvKey) (acts : List SyncAction) : Nat :=
  (acts.filter (SyncAction.isUpdateFor k)).length

/-- The run's operations with the propagation-linkage updates removed. -/
def nonLinkActions (acts : List SyncAction) : List SyncAction :=
  acts.filter (fun a => !a.isLink)

/- ### Checkfront propagation (CheckfrontAPI, core.py:271) -/

/-- The `item/{id}` rated response: `rate.status`, error id/title when status
is `ERROR`, and the SLIP continuation token. -/
structure RateInfo where
  status : String
  errorId : String
  errorTitle : String
  slip : Option String
  deriving DecidableEq, Repr

/-- The `booking/create` response: request-level error (title, details) when
`request.status == "ERROR"`, and the candidate booking-id fields probed by
`create_hipcamp_booking`. -/
structure BookingResponse where
  requestError : Option (String × String)
  bookingObjId : Option String
  bookingIdField : Option String
  idField : Option String
  bookingObjBookingId : Option String
  deriving DecidableEq, Repr

/-- The Checkfront API responses observed during one propagation attempt
(messages modelled at normal log level). -/
structure CheckfrontEnv where
  sessionId : Option String
  rate : RateInfo
  sessionItems : Bool
  requiredFields : List (String × String)
  bookingResp : BookingResponse
  deriving DecidableEq, Repr

/-- `create_booking_session` (core.py:469): raises when the response holds no
truthy session id. -/
def create_booking_session (env : CheckfrontEnv) : Except String String :=
  if pyTruthy env.sessionId then .ok (env.sessionId.getD "")
  else .error "No session ID found in Checkfront API response."

/-- The availability-error message of `add_item_to_session` (core.py:560). -/
def unavailableMsg (itemId : String) (r : RateInfo) : String :=
  "Item " ++ itemId ++ " is unavailable: " ++ r.errorTitle ++
    " (Error ID: " ++ r.errorId ++ ")"

/-- `add_item_to_session` (core.py:496): availability check, SLIP extraction
and the session POST; every failure raises `ValueError` with the messages of
the source. -/
def add_item_to_session (env : CheckfrontEnv) (itemId : String) :
    Except String Unit :=
  if ¬ pyTruthy env.sessionId then .error "No active booking session"
  else if env.rate.status = "ERROR" then .error (unavailableMsg itemId env.rate)
  else if ¬ (env.rate.status = "AVAILABLE") then
    .error ("Item " ++ itemId ++ " has unexpected status: " ++ env.rate.status)
  else if ¬ pyTruthy env.rate.slip then
    .error ("No SLIP returned for item " ++ itemId)
  else if ¬ env.sessionItems then
    .error ("Failed to add item " ++ itemId ++ " to session - no items in session")
  else .ok ()

/-- `field_mapping` of `create_booking` (core.py:694). -/
def customerFieldMapping : PyDict String String :=
  [("name", "customer_name"), ("email", "customer_email"),
   ("phone", "customer_phone"), ("tent_camping", "camping_setup"),
   ("vehicle_trailer_camping", "vehicle__trailer_camping"),
   ("rv_details", "RV_details"), ("trailer_details", "trailer_details")]

/-- `default_customer_info` of `create_booking` (core.py:681). -/
def defaultCustomerInfo (c : PyDict String String) : PyDict String String :=
  [("customer_name", (dictGet c "name").getD "Guest"),
   ("customer_email", (dictGet c "email").getD "guest@example.com"),
   ("customer_phone", (dictGet c "phone").getD "555-555-5555"),
   ("camping_setup", "No"), ("vehicle__trailer_camping", "No"),
   ("RV_details", "N/A"), ("trailer_details", "N/A")]

/-- The merged customer info (core.py:705): provided truthy values overwrite
the defaults under Checkfront field names. -/
def mergeCustomerInfo (c : PyDict String String) : PyDict String String :=
  c.foldl
    (fun m kv =>
      if !(kv.2 = "") then
        dictSet m ((dictGet customerFieldMapping kv.1).getD kv.1) kv.2
      else m)
    (defaultCustomerInfo c)

def joinComma : List String → String
  | [] => ""
  | [s] => s
  | s :: rest => s ++ ", " ++ joinComma rest

/-- `create_booking` (core.py:634): session check, required-field validation
against the form schema, and the `booking/create` POST with its request-level
error check. -/
def create_booking (env : CheckfrontEnv) (customer : PyDict String String) :
    Except String BookingResponse :=
  if ¬ pyTruthy env.sessionId then .error "No active booking session"
  else
    let merged := mergeCustomerInfo customer
    let missing := env.requiredFields.filter
      (fun f => !(pyTruthy (dictGet merged f.1)))
    if ¬ missing.isEmpty then
      .error ("Missing required customer fields: " ++
        joinComma (missing.map Prod.snd))
    else
      match env.bookingResp.requestError with
      | some te =>
        .error ("Booking creation failed: " ++ te.1 ++
          (if !(te.2 = "") then " - " ++ te.2 else ""))
      | none => .ok env.bookingResp

/-- Python `a or b` restricted to optional strings: the first truthy value,
else the second operand. -/
def pyOrStr (a b : Option String) : Option String := if pyTruthy a then a else b

/-- The booking-id probe chain of `create_hipcamp_booking` (core.py:860). -/
def extractRespBookingId (r : BookingResponse) : Option String :=
  pyOrStr (pyOrStr (pyOrStr r.bookingObjId r.bookingIdField) r.idField)
    r.bookingObjBookingId

/-- `summary.split(" - ", 1)[0]`: the part before the first separator. -/
def splitBeforeFirst (sep : List Char) : List Char → List Char
  | [] => []
  | c :: t => if sep.isPrefixOf (c :: t) then [] else c :: splitBeforeFirst sep t

/-- The site display name recovered from an event summary (core.py:798). -/
def siteDisplayName (e : CalendarEvent) : String :=
  String.mk (splitBeforeFirst " - ".data e.summary.data)

/-- The reverse lookup over `SITE_DISPLAY_NAMES` (core.py:801): first site
whose display name matches. -/
def reverseLookup (d : PyDict String String) (v : String) : Option String :=
  match d with
  | [] => none
  | kv :: t => if kv.2 = v then some kv.1 else reverseLookup t v

/-- The body of `create_hipcamp_booking`'s outer `try` (core.py:795-878):
site resolution (missing mappings return "no booking" without raising),
session creation, the availability step with its `ValueError` handler doing a
substring match for SOLDOUT/OVERBOOK/unavailable, booking creation, and the
booking-id probe.  `.error` is a raised exception reaching the outer handler. -/
def chbBody (env : CheckfrontEnv) (displayNames : PyDict String String)
    (cfMapping : PyDict String (String × String)) (e : CalendarEvent)
    (customer : PyDict String String) : Except String (Option String) :=
  match reverseLookup displayNames (siteDisplayName e) with
  | none => .ok none
  | some site =>
    match dictGet cfMapping site with
    | none => .ok none
    | some cfm =>
      match create_booking_session env with
      | .error msg => .error msg
      | .ok _ =>
        match add_item_to_session env cfm.2 with
        | .error msg =>
          if pySub "SOLDOUT" msg || pySub "OVERBOOK" msg ||
              pySub "unavailable" msg then .ok none
          else .error msg
        | .ok _ =>
          match create_booking env customer with
          | .error msg => .error msg
          | .ok resp => .ok (extractRespBookingId resp)

/-- `create_hipcamp_booking` (core.py:777): the outer
`except Exception: return None` around `chbBody`. -/
def create_hipcamp_booking (env : CheckfrontEnv)
    (displayNames : PyDict String String)
    (cfMapping : PyDict String (String × String)) (e : CalendarEvent)
    (customer : PyDict String String) : Option String :=
  match chbBody env displayNames cfMapping e customer with
  | .ok r => r
  | .error _ => none

/-- The `(source, source_id)` keys of the tracked events of a list, in order.
The spec's identity invariant makes this list duplicate-free for a calendar:
the pair is the sole identity key, one calendar entry per reservation. -/
def trackedKeys (es : List CalendarEvent) : List EvKey :=
  es.filterMap
    (fun e => if pyTruthy e.source_id then some (eventKey e) else none)

/-! ## Theorems -/

/- ### Basic lemmas on truthiness and dicts -/

theorem pyTruthy_iff (o : Option String) :
    pyTruthy o = true ↔ ∃ s, o = some s ∧ s ≠ "" := by
  cases o with
  | none => simp [pyTruthy]
  | some s => simp [pyTruthy]

theorem pyTruthy_some_iff (s : String) :
    pyTruthy (some s) = true ↔ s ≠ "" := by
  simp [pyTruthy]

theorem dictGet_dictSet_self {α β : Type} [DecidableEq α]
    (d : PyDict α β) (k : α) (v : β) : dictGet (dictSet d k v) k = some v := by
  induction d with
  | nil => simp [dictSet, dictGet]
  | cons kv t ih =>
    obtain ⟨k', v'⟩ := kv
    by_cases h : k' = k
    · simp [dictSet, h, dictGet]
    · simp [dictSet, h, dictGet, ih]

theorem dictGet_dictSet_ne {α β : Type} [DecidableEq α]
    (d : PyDict α β) (k k' : α) (v : β) (h : k' ≠ k) :
    dictGet (dictSet d k v) k' = dictGet d k' := by
  induction d with
  | nil => simp [dictSet, dictGet, Ne.symm h]
  | cons kv t ih =>
    obtain ⟨k₀, v₀⟩ := kv
    by_cases h0 : k₀ = k
    · subst h0
      simp [dictSet, dictGet, Ne.symm h]
    · by_cases h1 : k₀ = k'
      · simp only [dictSet, if_neg h0, dictGet, if_pos h1]
      · simp only [dictSet, if_neg h0, dictGet, if_neg h1, ih]

theorem dictGet_dictSet_cases {α β : Type} [DecidableEq α]
    (d : PyDict α β) (k k' : α) (v w : β)
    (h : dictGet (dictSet d k v) k' = some w) :
    (k' = k ∧ w = v) ∨ dictGet d k' = some w := by
  by_cases hk : k' = k
  · subst hk
    rw [dictGet_dictSet_self] at h
    exact Or.inl ⟨rfl, (Option.some_injective _ h).symm⟩
  · rw [dictGet_dictSet_ne _ _ _ _ hk] at h
    exact Or.inr h

theorem mem_dictSet {α β : Type} [DecidableEq α]
    (d : PyDict α β) (k : α) (v : β) (x : α × β)
    (h : x ∈ dictSet d k v) : x = (k, v) ∨ x ∈ d := by
  induction d with
  | nil => simpa [dictSet] using h
  | cons kv t ih =>
    obtain ⟨k₀, v₀⟩ := kv
    by_cases h0 : k₀ = k
    · rw [dictSet] at h
      rw [if_pos h0] at h
      rcases List.mem_cons.mp h with h1 | h1
      · exact Or.inl h1
      · exact Or.inr (List.mem_cons.mpr (Or.inr h1))
    · rw [dictSet] at h
      rw [if_neg h0] at h
      rcases List.mem_cons.mp h with h1 | h1
      · exact Or.inr (List.mem_cons.mpr (Or.inl h1))
      · rcases ih h1 with h2 | h2
        · exact Or.inl h2
        · exact Or.inr (List.mem_cons.mpr (Or.inr h2))

theorem mem_of_dictGet_eq_some {α β : Type} [DecidableEq α]
    (d : PyDict α β) (k : α) (v : β) (h : dictGet d k = some v) :
    (k, v) ∈ d := by
  induction d with
  | nil => simp [dictGet] at h
  | cons kv t ih =>
    obtain ⟨k₀, v₀⟩ := kv
    by_cases h0 : k₀ = k
    · subst h0
      rw [dictGet] at h
      rw [if_pos rfl] at h
      obtain rfl := Option.some_injective _ h
      exact List.mem_cons.mpr (Or.inl rfl)
    · rw [dictGet] at h
      rw [if_neg h0] at h
      exact List.mem_cons.mpr (Or.inr (ih h))

theorem dictGet_eq_some_of_mem {α β : Type} [DecidableEq α]
    (d : PyDict α β) (k : α) (v : β)
    (hnd : (dictKeys d).Nodup) (h : (k, v) ∈ d) : dictGet d k = some v := by
  induction d with
  | nil => simp at h
  | cons kv t ih =>
    obtain ⟨k₀, v₀⟩ := kv
    simp only [dictKeys, List.map_cons, List.nodup_cons] at hnd
    rcases List.mem_cons.mp h with h1 | h1
    · rw [Prod.mk.injEq] at h1
      rw [dictGet]
      rw [if_pos h1.1.symm, h1.2]
    · have hne : k₀ ≠ k := by
        intro he
        exact hnd.1 (he ▸ (List.mem_map.mpr ⟨(k, v), h1, rfl⟩))
      rw [dictGet]
      rw [if_neg hne]
      exact ih hnd.2 h1

theorem dictGet_isSome_of_mem_keys {α β : Type} [DecidableEq α]
    (d : PyDict α β) (k : α) (h : k ∈ dictKeys d) :
    (dictGet d k).isSome = true := by
  induction d with
  | nil => simp [dictKeys] at h
  | cons kv t ih =>
    obtain ⟨k₀, v₀⟩ := kv
    by_cases h0 : k₀ = k
    · simp [dictGet, h0]
    · simp only [dictKeys, List.map_cons, List.mem_cons] at h
      rcases h with h | h
      · exact absurd h.symm h0
      · simpa [dictGet, h0] using ih h

theorem mem_keys_of_dictGet_isSome {α β : Type} [DecidableEq α]
    (d : PyDict α β) (k : α) (h : (dictGet d k).isSome = true) :
    k ∈ dictKeys d := by
  obtain ⟨v, hv⟩ := Option.isSome_iff_exists.mp h
  exact List.mem_map.mpr ⟨(k, v), mem_of_dictGet_eq_some d k v hv, rfl⟩

theorem dictKeys_dictSet_subset {α β : Type} [DecidableEq α]
    (d : PyDict α β) (k : α) (v : β) (x : α)
    (h : x ∈ dictKeys (dictSet d k v)) : x = k ∨ x ∈ dictKeys d := by
  obtain ⟨⟨k', v'⟩, hm, he⟩ := List.mem_map.mp h
  rcases mem_dictSet d k v _ hm with h' | h'
  · exact Or.inl (he ▸ congrArg Prod.fst h')
  · exact Or.inr (he ▸ List.mem_map.mpr ⟨_, h', rfl⟩)

theorem dictKeys_nodup_dictSet {α β : Type} [DecidableEq α]
    (d : PyDict α β) (k : α) (v : β) (h : (dictKeys d).Nodup) :
    (dictKeys (dictSet d k v)).Nodup := by
  induction d with
  | nil => simp [dictSet, dictKeys]
  | cons kv t ih =>
    obtain ⟨k₀, v₀⟩ := kv
    simp only [dictKeys, List.map_cons, List.nodup_cons] at h
    by_cases h0 : k₀ = k
    · subst h0
      rw [dictSet]
      rw [if_pos rfl]
      simpa [dictKeys, List.nodup_cons] using h
    · rw [dictSet]
      rw [if_neg h0]
      simp only [dictKeys, List.map_cons, List.nodup_cons]
      refine ⟨?_, ih h.2⟩
      intro hmem
      rcases dictKeys_dictSet_subset t k v k₀ hmem with h' | h'
      · exact h0 h'
      · exact h.1 h'

theorem dictGet_isSome_dictSet {α β : Type} [DecidableEq α]
    (d : PyDict α β) (k k' : α) (v : β)
    (h : (dictGet d k').isSome = true) :
    (dictGet (dictSet d k v) k').isSome = true := by
  by_cases hk : k' = k
  · subst hk
    simp [dictGet_dictSet_self]
  · rwa [dictGet_dictSet_ne _ _ _ _ hk]

theorem mem_dictMerge {α β : Type} [DecidableEq α]
    (a b : PyDict α β) (x : α × β) (h : x ∈ dictMerge a b) :
    x ∈ a ∨ x ∈ b := by
  induction b generalizing a with
  | nil => exact Or.inl h
  | cons kv t ih =>
    rcases ih (dictSet a kv.1 kv.2) h with h' | h'
    · rcases mem_dictSet a kv.1 kv.2 x h' with h'' | h''
      · exact Or.inr (List.mem_cons.mpr (Or.inl h''))
      · exact Or.inl h''
    · exact Or.inr (List.mem_cons.mpr (Or.inr h'))

theorem dictKeys_nodup_dictMerge {α β : Type} [DecidableEq α]
    (a b : PyDict α β) (h : (dictKeys a).Nodup) :
    (dictKeys (dictMerge a b)).Nodup := by
  induction b generalizing a with
  | nil => exact h
  | cons kv t ih => exact ih _ (dictKeys_nodup_dictSet a kv.1 kv.2 h)

/-- **C10.** `normalize_datetime` is total on dates and datetimes and always
returns a timezone-aware datetime: a pure date becomes that date at 00:00 with
UTC attached, a naive datetime gets UTC attached with its clock fields
unchanged, an aware datetime is returned as-is; hence it is idempotent, and a
naive (local-time) value is interpreted as if it were UTC (its instant equals
its clock reading). -/
theorem C10_normalize_datetime_total_aware_idempotent :
    (∀ d : Int, normalize_datetime (.date d) =
      { clock := d * minutesPerDay, tz := some 0 }) ∧
    (∀ dt : PyDateTime, dt.tz = none →
      normalize_datetime (.dateTime dt) = { clock := dt.clock, tz := some 0 }) ∧
    (∀ dt : PyDateTime, dt.tz ≠ none →
      normalize_datetime (.dateTime dt) = dt) ∧
    (∀ x : PyTemporal, (normalize_datetime x).tz.isSome = true) ∧
    (∀ x : PyTemporal,
      normalize_datetime (.dateTime (normalize_datetime x)) =
        normalize_datetime x) ∧
    (∀ dt : PyDateTime, dt.tz = none →
      (normalize_datetime (.dateTime dt)).instant = dt.clock) := by
  refine ⟨fun d => rfl, fun dt h => ?_, fun dt h => ?_, fun x => ?_,
    fun x => ?_, fun dt h => ?_⟩
  · simp [normalize_datetime, h]
  · simp [normalize_datetime, h]
  · cases x with
    | date d => simp [normalize_datetime]
    | dateTime dt =>
      by_cases h : dt.tz = none
      · simp [normalize_datetime, h]
      · cases htz : dt.tz with
        | none => exact absurd htz h
        | some o => simp [normalize_datetime, htz]
  · cases x with
    | date d => simp [normalize_datetime]
    | dateTime dt =>
      by_cases h : dt.tz = none
      · simp [normalize_datetime, h]
      · cases htz : dt.tz with
        | none => exact absurd htz h
        | some o => simp [normalize_datetime, htz]
  · simp [normalize_datetime, h, PyDateTime.instant]

/-- Witness for C10 at concrete inputs: a naive datetime at clock 77 gets UTC
attached unchanged. -/
theorem C10_witness :
    normalize_datetime (.dateTime { clock := 77, tz := none }) =
      { clock := 77, tz := some 0 } :=
  C10_normalize_datetime_total_aware_idempotent.2.1 { clock := 77, tz := none } rfl

/- ### Claim C7: date handling in the feed normalizer -/

/-- **C7** (code bug).  The claim — and the code's own inline comments
`# 2:00 PM check-in` / `# 12:00 PM check-out` at core.py:1061/1068 — say a
pure-date dtstart/dtend becomes date+14:00 / date+12:00.  The code guards the
combine with `isinstance(start_date, vDate)`, but `event.get("dtstart").dt`
is a plain `datetime.date`, never the `vDate` wrapper, so the guard is
constant-false and the combine is dead code.  Evaluating the faithful
embedding at the failing all-day input (dtstart = day 20, dtend = day 22,
description "Booking ID: #7"): the bare dates pass through unchanged — in
particular the produced start is *not* day 20 combined with 14:00 and the end
is *not* day 22 combined with 12:00, and no timezone (America/New_York or
other) is attached.  A source-supplied timestamp is indeed kept unmodified,
but only because *everything* is kept unmodified. -/
theorem C7_date_combine_dead_code :
    hipcampCheckIn (.date 20) = .date 20 ∧
    hipcampCheckOut (.date 22) = .date 22 ∧
    hipcampCheckIn (.date 20) ≠
      .dateTime { clock := 20 * minutesPerDay + 14 * 60, tz := none } ∧
    hipcampCheckOut (.date 22) ≠
      .dateTime { clock := 22 * minutesPerDay + 12 * 60, tz := none } ∧
    (hipcampCheckIn (.date 20)).tzAware = false ∧
    processVEvent [] "hilltop1"
        { description := "Booking ID: #7", dtstart := .date 20,
          dtend := .date 22 } =
      some { start_time := .date 20, end_time := .date 22,
             summary := "hilltop1 - Booking ID: #7",
             description := some "Booking ID: #7", source := "hipcamp",
             source_id := some "7", google_event_id := none } ∧
    (∀ dt : PyDateTime, hipcampCheckIn (.dateTime dt) = .dateTime dt ∧
        hipcampCheckOut (.dateTime dt) = .dateTime dt) := by
  refine ⟨rfl, rfl, by decide, by decide, rfl, by decide, fun dt => ⟨rfl, rfl⟩⟩

/- ### Claim C6: metadata round trip -/

/-- **C6.**  For every source in {hipcamp, checkfront} and every source id,
the body the engine writes carries the private extended properties
`{source}_booking_id = source_id` and `synced_by_script = "true"`, and reading
the stored raw event back through `get_google_calendar_events` recovers
exactly the same `(source, source_id)` pair. -/
theorem C6_metadata_roundtrip (src sid : String) (e : CalendarEvent)
    (g : String) (h : src = "hipcamp" ∨ src = "checkfront") :
    dictGet (buildBody src sid e).props (src ++ "_booking_id") = some sid ∧
    dictGet (buildBody src sid e).props "synced_by_script" = some "true" ∧
    (readBackEvent (rawOfBody g (buildBody src sid e))).source = src ∧
    (readBackEvent (rawOfBody g (buildBody src sid e))).source_id = some sid := by
  rcases h with h | h <;> subst h <;>
    exact ⟨by simp [buildBody, dictGet],
      by simp [buildBody, dictGet],
      by simp [buildBody, readBackEvent, rawOfBody, recoverSource, dictGet],
      by simp [buildBody, readBackEvent, rawOfBody, recoverSource, dictGet]⟩

/-- Witness for C6 at source `checkfront`, id `"123"`. -/
theorem C6_witness :
    ("checkfront" = "hipcamp" ∨ ("checkfront" : String) = "checkfront") ∧
    ((readBackEvent (rawOfBody "g1"
        (buildBody "checkfront" "123"
          { start_time := .date 0, end_time := .date 1, summary := "HT1 - Jane"
            description := none, source := "checkfront", source_id := some "123"
            google_event_id := none }))).source = "checkfront" ∧
      (readBackEvent (rawOfBody "g1"
        (buildBody "checkfront" "123"
          { start_time := .date 0, end_time := .date 1, summary := "HT1 - Jane"
            description := none, source := "checkfront", source_id := some "123"
            google_event_id := none }))).source_id = some "123") :=
  ⟨Or.inr rfl,
    (C6_metadata_roundtrip "checkfront" "123"
      { start_time := .date 0, end_time := .date 1, summary := "HT1 - Jane"
        description := none, source := "checkfront", source_id := some "123"
        google_event_id := none } "g1" (Or.inr rfl)).2.2⟩

/- ### Claim C9: feed fetch failure isolation -/

theorem processFeed_error (displayNames : PyDict String String) (f : FeedSpec)
    (hf : f.fetched = .error ()) : processFeed displayNames f = [] := by
  unfold processFeed
  rw [hf]
  by_cases h : pyTruthy f.url = true
  · simp [h]
  · simp [h]

/-- **C9.**  A network/HTTP fetch failure for one HipCamp iCal feed is caught
inside `fetch_hipcamp_events`: the failing feed contributes zero events, the
remaining feeds before and after it are still processed and their events
returned, and the function returns normally (it is a total function of the
fetch outcomes). -/
theorem C9_feed_failure_isolated (displayNames : PyDict String String)
    (pre post : List FeedSpec) (f : FeedSpec) (hf : f.fetched = .error ()) :
    fetch_hipcamp_events displayNames (pre ++ f :: post) =
      fetch_hipcamp_events displayNames pre ++
        fetch_hipcamp_events displayNames post := by
  unfold fetch_hipcamp_events
  rw [List.map_append, List.map_cons, processFeed_error displayNames f hf]
  simp

/-- Witness for C9: a failing middle feed between two healthy feeds. -/
theorem C9_witness :
    (FeedSpec.fetched ⟨"siteB", some "urlB", .error ()⟩ = .error ()) ∧
    fetch_hipcamp_events []
        [⟨"siteA", some "urlA", .ok [⟨"Booking ID: #7", .date 0, .date 1⟩]⟩,
         ⟨"siteB", some "urlB", .error ()⟩,
         ⟨"siteC", some "urlC", .ok []⟩] =
      fetch_hipcamp_events []
          [⟨"siteA", some "urlA", .ok [⟨"Booking ID: #7", .date 0, .date 1⟩]⟩] ++
        fetch_hipcamp_events [] [⟨"siteC", some "urlC", .ok []⟩] :=
  ⟨rfl, C9_feed_failure_isolated []
    [⟨"siteA", some "urlA", .ok [⟨"Booking ID: #7", .date 0, .date 1⟩]⟩]
    [⟨"siteC", some "urlC", .ok []⟩] ⟨"siteB", some "urlB", .error ()⟩ rfl⟩

/- ### Properties of the new-events map -/

theorem newSourceMap_foldl_mem (source : String) (now : PyDateTime) :
    ∀ (l : List CalendarEvent) (m : PyDict EvKey CalendarEvent)
      (x : EvKey × CalendarEvent),
      x ∈ l.foldl
        (fun m e =>
          if pyTruthy e.source_id ∧
              now.instant < (normalize_datetime e.end_time).instant then
            dictSet m (source, e.source_id.getD "") e
          else m) m →
      x ∈ m ∨
        (x.1.1 = source ∧ x.2 ∈ l ∧ pyTruthy x.2.source_id = true ∧
          x.1.2 = x.2.source_id.getD "" ∧
          now.instant < (normalize_datetime x.2.end_time).instant) := by
  intro l
  induction l with
  | nil => exact fun m x h => Or.inl h
  | cons e t ih =>
    intro m x h
    rw [List.foldl_cons] at h
    rcases ih _ x h with h' | h'
    · by_cases hc : pyTruthy e.source_id = true ∧
        now.instant < (normalize_datetime e.end_time).instant
      · rw [if_pos hc] at h'
        rcases mem_dictSet _ _ _ _ h' with h'' | h''
        · subst h''
          exact Or.inr ⟨rfl, List.mem_cons.mpr (Or.inl rfl), hc.1, rfl, hc.2⟩
        · exact Or.inl h''
      · rw [if_neg hc] at h'
        exact Or.inl h'
    · exact Or.inr ⟨h'.1, List.mem_cons.mpr (Or.inr h'.2.1), h'.2.2⟩

theorem mem_newSourceMap (source : String) (events : List CalendarEvent)
    (now : PyDateTime) (x : EvKey × CalendarEvent)
    (h : x ∈ newSourceMap source events now) :
    x.1.1 = source ∧ x.2 ∈ events ∧ pyTruthy x.2.source_id = true ∧
      x.1.2 = x.2.source_id.getD "" ∧
      now.instant < (normalize_datetime x.2.end_time).instant := by
  rcases newSourceMap_foldl_mem source now events [] x h with h' | h'
  · simp at h'
  · exact h'

theorem newSourceMap_foldl_nodup (source : String) (now : PyDateTime) :
    ∀ (l : List CalendarEvent) (m : PyDict EvKey CalendarEvent),
      (dictKeys m).Nodup →
      (dictKeys (l.foldl
        (fun m e =>
          if pyTruthy e.source_id ∧
              now.instant < (normalize_datetime e.end_time).instant then
            dictSet m (source, e.source_id.getD "") e
          else m) m)).Nodup := by
  intro l
  induction l with
  | nil => exact fun m hm => hm
  | cons e t ih =>
    intro m hm
    rw [List.foldl_cons]
    refine ih _ ?_
    by_cases hc : pyTruthy e.source_id = true ∧
        now.instant < (normalize_datetime e.end_time).instant
    · rw [if_pos hc]
      exact dictKeys_nodup_dictSet _ _ _ hm
    · rwa [if_neg hc]

theorem newSourceMap_keys_nodup (source : String) (events : List CalendarEvent)
    (now : PyDateTime) : (dictKeys (newSourceMap source events now)).Nodup := by
  exact newSourceMap_foldl_nodup source now events [] (by simp [dictKeys])

theorem newEventsMap_keys_nodup (hip cf : List CalendarEvent)
    (now : PyDateTime) : (dictKeys (newEventsMap hip cf now)).Nodup :=
  dictKeys_nodup_dictMerge _ _ (newSourceMap_keys_nodup "hipcamp" hip now)

theorem mem_newEventsMap (hip cf : List CalendarEvent) (now : PyDateTime)
    (x : EvKey × CalendarEvent) (h : x ∈ newEventsMap hip cf now) :
    pyTruthy x.2.source_id = true ∧ x.1.2 = x.2.source_id.getD "" ∧
      now.instant < (normalize_datetime x.2.end_time).instant ∧
      ((x.1.1 = "hipcamp" ∧ x.2 ∈ hip) ∨ (x.1.1 = "checkfront" ∧ x.2 ∈ cf)) := by
  rcases mem_dictMerge _ _ _ h with h' | h'
  · obtain ⟨h1, h2, h3, h4, h5⟩ := mem_newSourceMap _ _ _ _ h'
    exact ⟨h3, h4, h5, Or.inl ⟨h1, h2⟩⟩
  · obtain ⟨h1, h2, h3, h4, h5⟩ := mem_newSourceMap _ _ _ _ h'
    exact ⟨h3, h4, h5, Or.inr ⟨h1, h2⟩⟩

theorem newEventsMap_get_spec (hip cf : List CalendarEvent) (now : PyDateTime)
    (k : EvKey) (e : CalendarEvent)
    (h : dictGet (newEventsMap hip cf now) k = some e) :
    pyTruthy e.source_id = true ∧ k.2 = e.source_id.getD "" ∧
      now.instant < (normalize_datetime e.end_time).instant ∧
      ((k.1 = "hipcamp" ∧ e ∈ hip) ∨ (k.1 = "checkfront" ∧ e ∈ cf)) :=
  mem_newEventsMap hip cf now (k, e) (mem_of_dictGet_eq_some _ _ _ h)

/- ### Fresh ids -/

theorem isPrefixOf_append_self (l t : List Char) :
    l.isPrefixOf (l ++ t) = true := by
  induction l with
  | nil => simp [List.isPrefixOf]
  | cons c cs ih => simp [List.isPrefixOf, ih]

theorem hasFreshPrefix_freshGid (n : Nat) :
    hasFreshPrefix (freshGid n) = true := by
  show List.isPrefixOf "gcal-".data (freshGid n).data = true
  have hd : (freshGid n).data = "gcal-".data ++ List.replicate n 'x' := rfl
  rw [hd]
  exact isPrefixOf_append_self _ _

theorem freshGid_ne_empty (n : Nat) : freshGid n ≠ "" := by
  intro h
  have h2 : (freshGid n).data = ("" : String).data := congrArg String.data h
  simp [freshGid] at h2

theorem freshGid_injective (n n' : Nat) (h : freshGid n = freshGid n') :
    n = n' := by
  have hd : ("gcal-".data ++ List.replicate n 'x') =
      ("gcal-".data ++ List.replicate n' 'x') := congrArg String.data h
  have := congrArg List.length hd
  simpa using this

/- ### Emission shapes of the two passes -/

theorem mem_deletionPass (gids : PyDict EvKey String)
    (nm : PyDict EvKey CalendarEvent) (now : PyDateTime) :
    ∀ (emL : PyDict EvKey CalendarEvent) (a : SyncAction),
      a ∈ deletionPass gids nm now emL →
      ∃ k e g, (k, e) ∈ emL ∧ a = SyncAction.delete k g ∧
        dictGet nm k = none ∧
        now.instant < (normalize_datetime e.end_time).instant ∧
        dictGet gids k = some g ∧ g ≠ "" := by
  intro emL
  induction emL with
  | nil => intro a h; simp [deletionPass] at h
  | cons kv t ih =>
    obtain ⟨k, e⟩ := kv
    intro a h
    rw [deletionPass] at h
    rcases List.mem_append.mp h with h' | h'
    · by_cases h1 : (dictGet nm k).isNone
      · rw [if_pos h1] at h'
        by_cases h2 : (normalize_datetime e.end_time).instant ≤ now.instant
        · rw [if_pos h2] at h'
          simp at h'
        · rw [if_neg h2] at h'
          by_cases h3 : pyTruthy (dictGet gids k) = true
          · rw [if_pos h3] at h'
            obtain rfl := List.mem_singleton.mp h'
            obtain ⟨g, hg, hgne⟩ := pyTruthy_iff _ |>.mp h3
            refine ⟨k, e, g, List.mem_cons.mpr (Or.inl rfl), ?_,
              Option.isNone_iff_eq_none.mp h1, lt_of_not_le h2, hg, hgne⟩
            rw [hg]
            rfl
          · rw [if_neg h3] at h'
            simp at h'
      · rw [if_neg h1] at h'
        simp at h'
    · obtain ⟨k', e', g', hm, rest⟩ := ih a h'
      exact ⟨k', e', g', List.mem_cons.mpr (Or.inr hm), rest⟩

theorem mem_upsertPass (mapping : List String)
    (prop : CalendarEvent → Option String) (now : PyDateTime)
    (em : PyDict EvKey CalendarEvent) :
    ∀ (l : PyDict EvKey CalendarEvent) (gids : PyDict EvKey String) (n : Nat)
      (a : SyncAction), a ∈ upsertPass mapping prop now em l gids n →
      ∃ k e, (k, e) ∈ l ∧
        now.instant < (normalize_datetime e.end_time).instant ∧
        ((∃ g, a = SyncAction.create k g (buildBody k.1 k.2 e) ∧
            dictGet em k = none ∧ hasFreshPrefix g = true) ∨
          (∃ g, a = SyncAction.update k g (buildBody k.1 k.2 e) ∧
            (dictGet em k).isSome = true) ∨
          (∃ g c, a = SyncAction.link k g
            (enrichBody (buildBody k.1 k.2 e) c) ∧ k.1 = "hipcamp")) := by
  intro l
  induction l with
  | nil => intro gids n a h; simp [upsertPass] at h
  | cons kv t ih =>
    obtain ⟨k, e⟩ := kv
    intro gids n a h
    rw [upsertPass] at h
    by_cases hend : (normalize_datetime e.end_time).instant ≤ now.instant
    · rw [if_pos hend] at h
      obtain ⟨k', e', hm, rest⟩ := ih gids n a h
      exact ⟨k', e', List.mem_cons.mpr (Or.inr hm), rest⟩
    · rw [if_neg hend] at h
      simp only [] at h
      by_cases hem : (dictGet em k).isSome = true
      · rw [if_pos hem] at h
        by_cases hg : pyTruthy (dictGet gids k) = true
        · rw [if_pos hg] at h
          rcases List.mem_cons.mp h with h' | h'
          · subst h'
            exact ⟨k, e, List.mem_cons.mpr (Or.inl rfl), lt_of_not_le hend,
              Or.inr (Or.inl ⟨_, rfl, hem⟩)⟩
          · rcases List.mem_append.mp h' with h'' | h''
            · by_cases hhc : k.1 = "hipcamp"
              · rw [if_pos hhc] at h''
                by_cases hmap : k.2 ∈ mapping
                · rw [if_pos hmap] at h''
                  simp at h''
                · rw [if_neg hmap] at h''
                  by_cases hp : pyTruthy (prop e) = true
                  · rw [if_pos hp] at h''
                    obtain rfl := List.mem_singleton.mp h''
                    exact ⟨k, e, List.mem_cons.mpr (Or.inl rfl),
                      lt_of_not_le hend, Or.inr (Or.inr ⟨_, _, rfl, hhc⟩)⟩
                  · rw [if_neg hp] at h''
                    simp at h''
              · rw [if_neg hhc] at h''
                simp at h''
            · obtain ⟨k', e', hm, rest⟩ := ih gids n a h''
              exact ⟨k', e', List.mem_cons.mpr (Or.inr hm), rest⟩
        · rw [if_neg hg] at h
          obtain ⟨k', e', hm, rest⟩ := ih gids n a h
          exact ⟨k', e', List.mem_cons.mpr (Or.inr hm), rest⟩
      · rw [if_neg hem] at h
        rcases List.mem_cons.mp h with h' | h'
        · subst h'
          exact ⟨k, e, List.mem_cons.mpr (Or.inl rfl), lt_of_not_le hend,
            Or.inl ⟨_, rfl, Option.not_isSome_iff_eq_none.mp hem,
              hasFreshPrefix_freshGid n⟩⟩
        · rcases List.mem_append.mp h' with h'' | h''
          · by_cases hhc : k.1 = "hipcamp"
            · rw [if_pos hhc] at h''
              by_cases hp : pyTruthy (prop e) = true
              · rw [if_pos hp] at h''
                obtain rfl := List.mem_singleton.mp h''
                exact ⟨k, e, List.mem_cons.mpr (Or.inl rfl), lt_of_not_le hend,
                  Or.inr (Or.inr ⟨_, _, rfl, hhc⟩)⟩
              · rw [if_neg hp] at h''
                simp at h''
            · rw [if_neg hhc] at h''
              simp at h''
          · obtain ⟨k', e', hm, rest⟩ :=
              ih (dictSet gids k (freshGid n)) (n + 1) a h''
            exact ⟨k', e', List.mem_cons.mpr (Or.inr hm), rest⟩

/- ### Properties of the existing-events maps -/

theorem buildExistingMaps_foldl_mem1 :
    ∀ (l : List CalendarEvent)
      (m : PyDict EvKey CalendarEvent × PyDict EvKey String)
      (x : EvKey × CalendarEvent),
      x ∈ (l.foldl
        (fun maps e =>
          if pyTruthy e.source_id then
            (dictSet maps.1 (eventKey e) e,
             if pyTruthy e.google_event_id then
               dictSet maps.2 (eventKey e) (e.google_event_id.getD "")
             else maps.2)
          else maps) m).1 →
      x ∈ m.1 ∨
        (x.2 ∈ l ∧ pyTruthy x.2.source_id = true ∧ x.1 = eventKey x.2) := by
  intro l
  induction l with
  | nil => exact fun m x h => Or.inl h
  | cons e t ih =>
    intro m x h
    rw [List.foldl_cons] at h
    rcases ih _ x h with h' | h'
    · by_cases hc : pyTruthy e.source_id = true
      · rw [if_pos hc] at h'
        rcases mem_dictSet _ _ _ _ h' with h'' | h''
        · subst h''
          exact Or.inr ⟨List.mem_cons.mpr (Or.inl rfl), hc, rfl⟩
        · exact Or.inl h''
      · rw [if_neg hc] at h'
        exact Or.inl h'
    · exact Or.inr ⟨List.mem_cons.mpr (Or.inr h'.1), h'.2⟩

theorem buildExistingMaps_foldl_mem2 :
    ∀ (l : List CalendarEvent)
      (m : PyDict EvKey CalendarEvent × PyDict EvKey String)
      (y : EvKey × String),
      y ∈ (l.foldl
        (fun maps e =>
          if pyTruthy e.source_id then
            (dictSet maps.1 (eventKey e) e,
             if pyTruthy e.google_event_id then
               dictSet maps.2 (eventKey e) (e.google_event_id.getD "")
             else maps.2)
          else maps) m).2 →
      y ∈ m.2 ∨
        ∃ e, e ∈ l ∧ pyTruthy e.source_id = true ∧
          pyTruthy e.google_event_id = true ∧
          e.google_event_id.getD "" = y.2 ∧ y.1 = eventKey e := by
  intro l
  induction l with
  | nil => exact fun m y h => Or.inl h
  | cons e t ih =>
    intro m y h
    rw [List.foldl_cons] at h
    rcases ih _ y h with h' | h'
    · by_cases hc : pyTruthy e.source_id = true
      · rw [if_pos hc] at h'
        by_cases hg : pyTruthy e.google_event_id = true
        · rw [if_pos hg] at h'
          rcases mem_dictSet _ _ _ _ h' with h'' | h''
          · subst h''
            exact Or.inr ⟨e, List.mem_cons.mpr (Or.inl rfl), hc, hg, rfl, rfl⟩
          · exact Or.inl h''
        · rw [if_neg hg] at h'
          exact Or.inl h'
      · rw [if_neg hc] at h'
        exact Or.inl h'
    · obtain ⟨e', he', rest⟩ := h'
      exact Or.inr ⟨e', List.mem_cons.mpr (Or.inr he'), rest⟩

theorem buildExistingMaps_foldl_nodup :
    ∀ (l : List CalendarEvent)
      (m : PyDict EvKey CalendarEvent × PyDict EvKey String),
      (dictKeys m.1).Nodup → (dictKeys m.2).Nodup →
      (dictKeys (l.foldl
        (fun maps e =>
          if pyTruthy e.source_id then
            (dictSet maps.1 (eventKey e) e,
             if pyTruthy e.google_event_id then
               dictSet maps.2 (eventKey e) (e.google_event_id.getD "")
             else maps.2)
          else maps) m).1).Nodup ∧
      (dictKeys (l.foldl
        (fun maps e =>
          if pyTruthy e.source_id then
            (dictSet maps.1 (eventKey e) e,
             if pyTruthy e.google_event_id then
               dictSet maps.2 (eventKey e) (e.google_event_id.getD "")
             else maps.2)
          else maps) m).2).Nodup := by
  intro l
  induction l with
  | nil => exact fun m h1 h2 => ⟨h1, h2⟩
  | cons e t ih =>
    intro m h1 h2
    rw [List.foldl_cons]
    by_cases hc : pyTruthy e.source_id = true
    · rw [if_pos hc]
      by_cases hg : pyTruthy e.google_event_id = true
      · rw [if_pos hg]
        exact ih _ (dictKeys_nodup_dictSet _ _ _ h1)
          (dictKeys_nodup_dictSet _ _ _ h2)
      · rw [if_neg hg]
        exact ih _ (dictKeys_nodup_dictSet _ _ _ h1) h2
    · rw [if_neg hc]
      exact ih _ h1 h2

theorem buildExistingMaps_mem1 (ex : List CalendarEvent)
    (x : EvKey × CalendarEvent) (h : x ∈ (buildExistingMaps ex).1) :
    x.2 ∈ ex ∧ pyTruthy x.2.source_id = true ∧ x.1 = eventKey x.2 := by
  rcases buildExistingMaps_foldl_mem1 ex ([], []) x h with h' | h'
  · simp at h'
  · exact h'

theorem buildExistingMaps_mem2 (ex : List CalendarEvent)
    (y : EvKey × String) (h : y ∈ (buildExistingMaps ex).2) :
    ∃ e, e ∈ ex ∧ pyTruthy e.source_id = true ∧
      e.google_event_id = some y.2 ∧ y.2 ≠ "" ∧ y.1 = eventKey e := by
  rcases buildExistingMaps_foldl_mem2 ex ([], []) y h with h' | h'
  · simp at h'
  · obtain ⟨e, he, hs, hg, hgd, hk⟩ := h'
    obtain ⟨s, hsome, hsne⟩ := (pyTruthy_iff _).mp hg
    rw [hsome] at hgd
    simp only [Option.getD_some] at hgd
    subst hgd
    exact ⟨e, he, hs, hsome, hsne, hk⟩

theorem buildExistingMaps_nodup1 (ex : List CalendarEvent) :
    (dictKeys (buildExistingMaps ex).1).Nodup :=
  (buildExistingMaps_foldl_nodup ex ([], []) (by simp [dictKeys])
    (by simp [dictKeys])).1

theorem buildExistingMaps_nodup2 (ex : List CalendarEvent) :
    (dictKeys (buildExistingMaps ex).2).Nodup :=
  (buildExistingMaps_foldl_nodup ex ([], []) (by simp [dictKeys])
    (by simp [dictKeys])).2

theorem buildExistingMaps_gids_spec (ex : List CalendarEvent) (k : EvKey)
    (g : String) (h : dictGet (buildExistingMaps ex).2 k = some g) :
    ∃ e, e ∈ ex ∧ pyTruthy e.source_id = true ∧
      e.google_event_id = some g ∧ g ≠ "" := by
  obtain ⟨e, he, hs, hg, hgne, _⟩ :=
    buildExistingMaps_mem2 ex (k, g) (mem_of_dictGet_eq_some _ _ _ h)
  exact ⟨e, he, hs, hg, hgne⟩

/- ### Claim C4: ended source events never written -/

/-- **C4.**  A source event whose normalized end time is `<= now` is excluded
from the new-events map and therefore never produces a calendar CREATE or
UPDATE: (1) every value of the map ends strictly after `now`; (2) an already
ended source event is not a value of the map under any key; (3) every CREATE
or UPDATE the run issues is keyed and bodied by a value of the map, which
satisfied `end > now` at map construction. -/
theorem C4_ended_events_excluded (hip cf : List CalendarEvent)
    (now : PyDateTime) :
    (∀ k e, dictGet (newEventsMap hip cf now) k = some e →
      now.instant < (normalize_datetime e.end_time).instant) ∧
    (∀ e, e ∈ hip ++ cf →
      (normalize_datetime e.end_time).instant ≤ now.instant →
      ∀ k, ¬ dictGet (newEventsMap hip cf now) k = some e) ∧
    (∀ existing mapping prop k g b,
      (SyncAction.create k g b ∈ runSync existing hip cf now mapping prop ∨
        SyncAction.update k g b ∈ runSync existing hip cf now mapping prop) →
      ∃ e, dictGet (newEventsMap hip cf now) k = some e ∧
        b = buildBody k.1 k.2 e ∧
        now.instant < (normalize_datetime e.end_time).instant) := by
  refine ⟨?_, ?_, ?_⟩
  · intro k e h
    exact (newEventsMap_get_spec hip cf now k e h).2.2.1
  · intro e _ hend k hc
    exact absurd ((newEventsMap_get_spec hip cf now k e hc).2.2.1)
      (not_lt.mpr hend)
  · intro existing mapping prop k g b h
    have hmem : ∀ a, a = SyncAction.create k g b ∨ a = SyncAction.update k g b →
        a ∈ runSync existing hip cf now mapping prop →
        ∃ e, dictGet (newEventsMap hip cf now) k = some e ∧
          b = buildBody k.1 k.2 e ∧
          now.instant < (normalize_datetime e.end_time).instant := by
      intro a ha hin
      rcases List.mem_append.mp hin with hd | hu
      · obtain ⟨k', e', g', _, heq, _⟩ := mem_deletionPass _ _ _ _ _ hd
        rcases ha with ha | ha <;> rw [ha] at heq <;> simp at heq
      · obtain ⟨k', e', hm, hlt, hdisj⟩ := mem_upsertPass _ _ _ _ _ _ _ _ hu
        have hget : dictGet (newEventsMap hip cf now) k' = some e' :=
          dictGet_eq_some_of_mem _ _ _ (newEventsMap_keys_nodup hip cf now) hm
        rcases ha with ha | ha
        · rcases hdisj with ⟨g₀, heq, _, _⟩ | ⟨g₀, heq, _⟩ | ⟨g₀, c₀, heq, _⟩ <;>
            rw [ha] at heq
          · obtain ⟨hk, _, hb⟩ := SyncAction.create.injEq .. ▸ heq
            subst hk
            exact ⟨e', hget, hb, hlt⟩
          · simp at heq
          · simp at heq
        · rcases hdisj with ⟨g₀, heq, _, _⟩ | ⟨g₀, heq, _⟩ | ⟨g₀, c₀, heq, _⟩ <;>
            rw [ha] at heq
          · simp at heq
          · obtain ⟨hk, _, hb⟩ := SyncAction.update.injEq .. ▸ heq
            subst hk
            exact ⟨e', hget, hb, hlt⟩
          · simp at heq
    rcases h with h | h
    · exact hmem _ (Or.inl rfl) h
    · exact hmem _ (Or.inr rfl) h

/-- Witness for C4: the single future hipcamp event is in the map and its end
is after `now`. -/
theorem C4_witness :
    dictGet (newEventsMap
        [{ start_time := .date 0, end_time := .date 2, summary := "HT1 - A",
           description := none, source := "hipcamp", source_id := some "7",
           google_event_id := none }] [] { clock := 0, tz := some 0 })
      ("hipcamp", "7") =
      some { start_time := .date 0, end_time := .date 2, summary := "HT1 - A",
             description := none, source := "hipcamp", source_id := some "7",
             google_event_id := none } ∧
    PyDateTime.instant { clock := 0, tz := some 0 } <
      (normalize_datetime (PyTemporal.date 2)).instant :=
  ⟨by decide, (C4_ended_events_excluded
      [{ start_time := .date 0, end_time := .date 2, summary := "HT1 - A",
         description := none, source := "hipcamp", source_id := some "7",
         google_event_id := none }] [] { clock := 0, tz := some 0 }).1
    ("hipcamp", "7")
    { start_time := .date 0, end_time := .date 2, summary := "HT1 - A",
      description := none, source := "hipcamp", source_id := some "7",
      google_event_id := none } (by decide)⟩

/- ### Claim C3: past events are never deleted -/

/-- **C3.**  In the deletion pass, a calendar DELETE for a tracked key is
issued only when that key is absent from the current source map and the
stored event's normalized end time is strictly after `now`; consequently a
tracked calendar event whose end time is not after `now` is never deleted. -/
theorem C3_delete_only_future_absent (existing hip cf : List CalendarEvent)
    (now : PyDateTime) (mapping : List String)
    (prop : CalendarEvent → Option String) :
    (∀ k g, SyncAction.delete k g ∈ runSync existing hip cf now mapping prop →
      ∃ e, dictGet (buildExistingMaps existing).1 k = some e ∧
        dictGet (newEventsMap hip cf now) k = none ∧
        now.instant < (normalize_datetime e.end_time).instant) ∧
    (∀ k e, dictGet (buildExistingMaps existing).1 k = some e →
      (normalize_datetime e.end_time).instant ≤ now.instant →
      ∀ g, SyncAction.delete k g ∉ runSync existing hip cf now mapping prop) := by
  have hfst : ∀ k g,
      SyncAction.delete k g ∈ runSync existing hip cf now mapping prop →
      ∃ e, dictGet (buildExistingMaps existing).1 k = some e ∧
        dictGet (newEventsMap hip cf now) k = none ∧
        now.instant < (normalize_datetime e.end_time).instant := by
    intro k g h
    rcases List.mem_append.mp h with hd | hu
    · obtain ⟨k', e', g', hm, heq, hnone, hlt, _, _⟩ :=
        mem_deletionPass _ _ _ _ _ hd
      obtain ⟨hk, _⟩ := SyncAction.delete.injEq .. ▸ heq
      subst hk
      exact ⟨e', dictGet_eq_some_of_mem _ _ _
        (buildExistingMaps_nodup1 existing) hm, hnone, hlt⟩
    · obtain ⟨k', e', _, _, hdisj⟩ := mem_upsertPass _ _ _ _ _ _ _ _ hu
      rcases hdisj with ⟨g₀, heq, _, _⟩ | ⟨g₀, heq, _⟩ | ⟨g₀, c₀, heq, _⟩ <;>
        simp at heq
  refine ⟨hfst, ?_⟩
  intro k e hget hend g hin
  obtain ⟨e', hget', _, hlt⟩ := hfst k g hin
  rw [hget] at hget'
  obtain rfl := Option.some_injective _ hget'
  exact absurd hlt (not_lt.mpr hend)

/-- Witness for C3: a calendar with one tracked past event whose key is
missing from the sources; the run issues no delete for it. -/
theorem C3_witness :
    dictGet (buildExistingMaps
        [{ start_time := .date 0, end_time := .date 1, summary := "HT1 - A",
           description := none, source := "hipcamp", source_id := some "9",
           google_event_id := some "gid9" }]).1 ("hipcamp", "9") =
      some { start_time := .date 0, end_time := .date 1, summary := "HT1 - A",
             description := none, source := "hipcamp", source_id := some "9",
             google_event_id := some "gid9" } ∧
    (normalize_datetime (PyTemporal.date 1)).instant ≤
      PyDateTime.instant { clock := 2 * 1440, tz := some 0 } ∧
    SyncAction.delete ("hipcamp", "9") "gid9" ∉
      runSync
        [{ start_time := .date 0, end_time := .date 1, summary := "HT1 - A",
           description := none, source := "hipcamp", source_id := some "9",
           google_event_id := some "gid9" }] [] []
        { clock := 2 * 1440, tz := some 0 } [] (fun _ => none) :=
  ⟨by decide, by decide,
    (C3_delete_only_future_absent
        [{ start_time := .date 0, end_time := .date 1, summary := "HT1 - A",
           description := none, source := "hipcamp", source_id := some "9",
           google_event_id := some "gid9" }] [] []
        { clock := 2 * 1440, tz := some 0 } [] (fun _ => none)).2
      ("hipcamp", "9")
      { start_time := .date 0, end_time := .date 1, summary := "HT1 - A",
        description := none, source := "hipcamp", source_id := some "9",
        google_event_id := some "gid9" } (by decide) (by decide) "gid9"⟩

/- ### Claim C2: present-present yields update, create only for absent keys -/

theorem upsertPass_emits_update (mapping : List String)
    (prop : CalendarEvent → Option String) (now : PyDateTime)
    (em : PyDict EvKey CalendarEvent) (k : EvKey) (e : CalendarEvent)
    (g : String) :
    ∀ (l : PyDict EvKey CalendarEvent) (gids : PyDict EvKey String) (n : Nat),
      (k, e) ∈ l → (dictKeys l).Nodup →
      (dictGet em k).isSome = true → dictGet gids k = some g → g ≠ "" →
      now.instant < (normalize_datetime e.end_time).instant →
      SyncAction.update k g (buildBody k.1 k.2 e) ∈
        upsertPass mapping prop now em l gids n := by
  intro l
  induction l with
  | nil => intro gids n hm; simp at hm
  | cons kv t ih =>
    obtain ⟨k₀, e₀⟩ := kv
    intro gids n hm hnd hem hg hgne hlt
    have hndt : (dictKeys t).Nodup := by
      simp only [dictKeys, List.map_cons, List.nodup_cons] at hnd
      exact hnd.2
    rcases List.mem_cons.mp hm with h | h
    · rw [Prod.mk.injEq] at h
      obtain ⟨hk, he⟩ := h
      subst hk
      subst he
      rw [upsertPass]
      rw [if_neg (not_le.mpr hlt)]
      simp only []
      rw [if_pos hem]
      have hgt : pyTruthy (dictGet gids k) = true := by
        rw [hg]
        exact (pyTruthy_some_iff _).mpr hgne
      rw [if_pos hgt, hg]
      exact List.mem_cons.mpr (Or.inl rfl)
    · have hk0 : k₀ ≠ k := by
        intro he
        simp only [dictKeys, List.map_cons, List.nodup_cons] at hnd
        exact hnd.1 (he ▸ List.mem_map.mpr ⟨(k, e), h, rfl⟩)
      rw [upsertPass]
      by_cases hend : (normalize_datetime e₀.end_time).instant ≤ now.instant
      · rw [if_pos hend]
        exact ih gids n h hndt hem hg hgne hlt
      · rw [if_neg hend]
        simp only []
        by_cases hem0 : (dictGet em k₀).isSome = true
        · rw [if_pos hem0]
          by_cases hg0 : pyTruthy (dictGet gids k₀) = true
          · rw [if_pos hg0]
            exact List.mem_cons.mpr (Or.inr (List.mem_append.mpr
              (Or.inr (ih gids n h hndt hem hg hgne hlt))))
          · rw [if_neg hg0]
            exact ih gids n h hndt hem hg hgne hlt
        · rw [if_neg hem0]
          refine List.mem_cons.mpr (Or.inr (List.mem_append.mpr (Or.inr ?_)))
          refine ih (dictSet gids k₀ (freshGid n)) (n + 1) h hndt hem ?_ hgne hlt
          rw [dictGet_dictSet_ne gids k₀ k (freshGid n) (Ne.symm hk0)]
          exact hg

/-- **C2.**  For a key present in both the existing calendar map and the
current source map (hence not yet ended), the upsert pass issues an UPDATE
addressed by the stored calendar event id; a CREATE is issued only for keys
absent from the existing calendar map. -/
theorem C2_present_present_updates (existing hip cf : List CalendarEvent)
    (now : PyDateTime) (mapping : List String)
    (prop : CalendarEvent → Option String) (k : EvKey) (e : CalendarEvent)
    (g : String)
    (hnm : dictGet (newEventsMap hip cf now) k = some e)
    (hem : (dictGet (buildExistingMaps existing).1 k).isSome = true)
    (hg : dictGet (buildExistingMaps existing).2 k = some g) (hgne : g ≠ "") :
    SyncAction.update k g (buildBody k.1 k.2 e) ∈
      runSync existing hip cf now mapping prop ∧
    (∀ k' g' b,
      SyncAction.create k' g' b ∈ runSync existing hip cf now mapping prop →
      dictGet (buildExistingMaps existing).1 k' = none) := by
  constructor
  · refine List.mem_append.mpr (Or.inr ?_)
    exact upsertPass_emits_update mapping prop now _ k e g _ _ 0
      (mem_of_dictGet_eq_some _ _ _ hnm) (newEventsMap_keys_nodup hip cf now)
      hem hg hgne (newEventsMap_get_spec hip cf now k e hnm).2.2.1
  · intro k' g' b h
    rcases List.mem_append.mp h with hd | hu
    · obtain ⟨k₀, e₀, g₀, _, heq, _⟩ := mem_deletionPass _ _ _ _ _ hd
      simp at heq
    · obtain ⟨k₀, e₀, _, _, hdisj⟩ := mem_upsertPass _ _ _ _ _ _ _ _ hu
      rcases hdisj with ⟨g₀, heq, hnone, _⟩ | ⟨g₀, heq, _⟩ | ⟨g₀, c₀, heq, _⟩
      · obtain ⟨hk, _, _⟩ := SyncAction.create.injEq .. ▸ heq
        subst hk
        exact hnone
      · simp at heq
      · simp at heq

/-- Witness for C2: calendar and sources both contain `(hipcamp, "123")`;
the run contains the refresh update addressed at the stored id. -/
theorem C2_witness :
    dictGet (newEventsMap
        [{ start_time := .date 0, end_time := .date 3, summary := "HT1 - A",
           description := none, source := "hipcamp", source_id := some "123",
           google_event_id := none }] [] { clock := 0, tz := some 0 })
      ("hipcamp", "123") =
      some { start_time := .date 0, end_time := .date 3, summary := "HT1 - A",
             description := none, source := "hipcamp", source_id := some "123",
             google_event_id := none } ∧
    SyncAction.update ("hipcamp", "123")
        "gid123" (buildBody "hipcamp" "123"
          { start_time := .date 0, end_time := .date 3, summary := "HT1 - A",
            description := none, source := "hipcamp", source_id := some "123",
            google_event_id := none }) ∈
      runSync
        [{ start_time := .date 0, end_time := .date 9, summary := "HT1 - A",
           description := none, source := "hipcamp", source_id := some "123",
           google_event_id := some "gid123" }]
        [{ start_time := .date 0, end_time := .date 3, summary := "HT1 - A",
           description := none, source := "hipcamp", source_id := some "123",
           google_event_id := none }] [] { clock := 0, tz := some 0 } []
        (fun _ => none) :=
  ⟨by decide,
    (C2_present_present_updates
        [{ start_time := .date 0, end_time := .date 9, summary := "HT1 - A",
           description := none, source := "hipcamp", source_id := some "123",
           google_event_id := some "gid123" }]
        [{ start_time := .date 0, end_time := .date 3, summary := "HT1 - A",
           description := none, source := "hipcamp", source_id := some "123",
           google_event_id := none }] [] { clock := 0, tz := some 0 } []
        (fun _ => none) ("hipcamp", "123")
        { start_time := .date 0, end_time := .date 3, summary := "HT1 - A",
          description := none, source := "hipcamp", source_id := some "123",
          google_event_id := none } "gid123"
        (by decide) (by decide) (by decide) (by decide)).1⟩

/- ### Claim C5: untracked calendar entries are never touched -/

theorem upsertPass_gid_prov (mapping : List String)
    (prop : CalendarEvent → Option String) (now : PyDateTime)
    (em : PyDict EvKey CalendarEvent) (G : String → Prop) :
    ∀ (l : PyDict EvKey CalendarEvent) (gids : PyDict EvKey String) (n : Nat),
      (∀ k g, dictGet gids k = some g → G g ∨ hasFreshPrefix g = true) →
      ∀ a ∈ upsertPass mapping prop now em l gids n,
        G a.gidOf ∨ hasFreshPrefix a.gidOf = true := by
  intro l
  induction l with
  | nil => intro gids n _ a h; simp [upsertPass] at h
  | cons kv t ih =>
    obtain ⟨k, e⟩ := kv
    intro gids n hinv a h
    rw [upsertPass] at h
    by_cases hend : (normalize_datetime e.end_time).instant ≤ now.instant
    · rw [if_pos hend] at h
      exact ih gids n hinv a h
    · rw [if_neg hend] at h
      simp only [] at h
      by_cases hem : (dictGet em k).isSome = true
      · rw [if_pos hem] at h
        by_cases hg : pyTruthy (dictGet gids k) = true
        · rw [if_pos hg] at h
          obtain ⟨g, hgs, _⟩ := (pyTruthy_iff _).mp hg
          rcases List.mem_cons.mp h with h' | h'
          · subst h'
            rw [SyncAction.gidOf, hgs]
            exact hinv k g hgs
          · rcases List.mem_append.mp h' with h'' | h''
            · have hlink : ∀ b,
                  a ∈ [SyncAction.link k ((dictGet gids k).getD "") b] →
                  G a.gidOf ∨ hasFreshPrefix a.gidOf = true := by
                intro b hb
                obtain rfl := List.mem_singleton.mp hb
                rw [SyncAction.gidOf, hgs]
                exact hinv k g hgs
              by_cases hhc : k.1 = "hipcamp"
              · rw [if_pos hhc] at h''
                by_cases hmap : k.2 ∈ mapping
                · rw [if_pos hmap] at h''
                  simp at h''
                · rw [if_neg hmap] at h''
                  by_cases hp : pyTruthy (prop e) = true
                  · rw [if_pos hp] at h''
                    exact hlink _ h''
                  · rw [if_neg hp] at h''
                    simp at h''
              · rw [if_neg hhc] at h''
                simp at h''
            · exact ih gids n hinv a h''
        · rw [if_neg hg] at h
          exact ih gids n hinv a h
      · rw [if_neg hem] at h
        rcases List.mem_cons.mp h with h' | h'
        · subst h'
          exact Or.inr (hasFreshPrefix_freshGid n)
        · rcases List.mem_append.mp h' with h'' | h''
          · by_cases hhc : k.1 = "hipcamp"
            · rw [if_pos hhc] at h''
              by_cases hp : pyTruthy (prop e) = true
              · rw [if_pos hp] at h''
                obtain rfl := List.mem_singleton.mp h''
                exact Or.inr (hasFreshPrefix_freshGid n)
              · rw [if_neg hp] at h''
                simp at h''
            · rw [if_neg hhc] at h''
              simp at h''
          · refine ih (dictSet gids k (freshGid n)) (n + 1) ?_ a h''
            intro k' g' hget
            rcases dictGet_dictSet_cases gids k k' (freshGid n) g' hget with
              ⟨_, hgf⟩ | hold
            · exact Or.inr (hgf ▸ hasFreshPrefix_freshGid n)
            · exact hinv k' g' hold

/-- **C5.**  A calendar entry read back with no recoverable source id (so it
fails the truthiness test on `source_id`) is never addressed by any operation
of the run: given that its Google id `g` is not shared with a tracked entry
and does not collide with the backend's fresh-insert ids, no delete, update,
create or enrichment operation of the run carries `g`. -/
theorem C5_untracked_never_touched (existing hip cf : List CalendarEvent)
    (now : PyDateTime) (mapping : List String)
    (prop : CalendarEvent → Option String) (e : CalendarEvent) (g : String)
    (he : e ∈ existing) (hu : pyTruthy e.source_id = false)
    (hg : e.google_event_id = some g)
    (huniq : ∀ e', e' ∈ existing → pyTruthy e'.source_id = true →
      e'.google_event_id ≠ some g)
    (hfresh : hasFreshPrefix g = false) :
    ∀ a, a ∈ runSync existing hip cf now mapping prop → a.gidOf ≠ g := by
  intro a ha hgid
  rcases List.mem_append.mp ha with hd | hu'
  · obtain ⟨k', e', g', _, heq, _, _, hget, _⟩ := mem_deletionPass _ _ _ _ _ hd
    obtain ⟨e₀, he₀, hs₀, hgid₀, _⟩ := buildExistingMaps_gids_spec _ _ _ hget
    subst heq
    rw [SyncAction.gidOf] at hgid
    subst hgid
    exact huniq e₀ he₀ hs₀ hgid₀
  · have hres := upsertPass_gid_prov mapping prop now
      (buildExistingMaps existing).1
      (fun g' => ∃ e', e' ∈ existing ∧ pyTruthy e'.source_id = true ∧
        e'.google_event_id = some g')
      (newEventsMap hip cf now) (buildExistingMaps existing).2 0
      (fun k' g' hget =>
        Or.inl (by
          obtain ⟨e₀, he₀, hs₀, hgid₀, _⟩ :=
            buildExistingMaps_gids_spec _ _ _ hget
          exact ⟨e₀, he₀, hs₀, hgid₀⟩))
      a hu'
    rcases hres with ⟨e₀, he₀, hs₀, hgid₀⟩ | hf
    · rw [hgid] at hgid₀
      exact huniq e₀ he₀ hs₀ hgid₀
    · rw [hgid] at hf
      rw [hf] at hfresh
      exact Bool.true_eq_false ▸ hfresh.symm ▸ (by simp at hfresh)

/-- Witness for C5: one untracked entry next to one tracked entry; no action
of the run addresses the untracked entry's Google id. -/
theorem C5_witness :
    ({ start_time := .date 0, end_time := .date 5, summary := "Manual",
       description := none, source := "google_calendar", source_id := none,
       google_event_id := some "manual1" } : CalendarEvent) ∈
      [({ start_time := .date 0, end_time := .date 5, summary := "Manual",
          description := none, source := "google_calendar", source_id := none,
          google_event_id := some "manual1" } : CalendarEvent),
       { start_time := .date 0, end_time := .date 5, summary := "HT1 - A",
         description := none, source := "hipcamp", source_id := some "7",
         google_event_id := some "gid7" }] ∧
    (∀ a, a ∈ runSync
        [({ start_time := .date 0, end_time := .date 5, summary := "Manual",
            description := none, source := "google_calendar",
            source_id := none, google_event_id := some "manual1" } :
            CalendarEvent),
         { start_time := .date 0, end_time := .date 5, summary := "HT1 - A",
           description := none, source := "hipcamp", source_id := some "7",
           google_event_id := some "gid7" }] [] []
        { clock := 0, tz := some 0 } [] (fun _ => none) →
      a.gidOf ≠ "manual1") :=
  ⟨List.mem_cons.mpr (Or.inl rfl),
    C5_untracked_never_touched
      [({ start_time := .date 0, end_time := .date 5, summary := "Manual",
          description := none, source := "google_calendar", source_id := none,
          google_event_id := some "manual1" } : CalendarEvent),
       { start_time := .date 0, end_time := .date 5, summary := "HT1 - A",
         description := none, source := "hipcamp", source_id := some "7",
         google_event_id := some "gid7" }] [] [] { clock := 0, tz := some 0 }
      [] (fun _ => none)
      { start_time := .date 0, end_time := .date 5, summary := "Manual",
        description := none, source := "google_calendar", source_id := none,
        google_event_id := some "manual1" } "manual1"
      (List.mem_cons.mpr (Or.inl rfl)) (by decide) (by decide)
      (by decide) (by decide)⟩

/- ### Claim C8: sold-out propagation is a benign skip -/

theorem hasSub_append_right (needle m : List Char)
    (h : hasSub needle m = true) :
    ∀ l, hasSub needle (l ++ m) = true := by
  intro l
  induction l with
  | nil => simpa using h
  | cons c t ih =>
    rw [List.cons_append, hasSub, ih]
    simp

theorem hasSub_self_append (needle t : List Char) :
    hasSub needle (needle ++ t) = true := by
  cases needle with
  | nil =>
    cases t with
    | nil => rfl
    | cons c t' => simp [hasSub, List.isPrefixOf]
  | cons c cs =>
    rw [List.cons_append, hasSub, ← List.cons_append, isPrefixOf_append_self]
    simp

theorem pySub_unavailableMsg (itemId : String) (r : RateInfo) :
    pySub "unavailable" (unavailableMsg itemId r) = true := by
  show hasSub "unavailable".data (unavailableMsg itemId r).data = true
  have hmid : (" is unavailable: " : String).data =
      " is ".data ++ ("unavailable".data ++ (": " : String).data) := by decide
  have hd : (unavailableMsg itemId r).data =
      ("Item ".data ++ itemId.data ++ " is ".data) ++
        ("unavailable".data ++
          ((": " : String).data ++ r.errorTitle.data ++ " (Error ID: ".data ++
            r.errorId.data ++ (")" : String).data)) := by
    show ("Item " ++ itemId ++ " is unavailable: " ++ r.errorTitle ++
        " (Error ID: " ++ r.errorId ++ ")").data = _
    simp only [String.data_append, List.append_assoc]
    simp
  rw [hd]
  exact hasSub_append_right _ _
    (hasSub_self_append _ _) _

theorem upsertPass_nonlink_prop_independent (mapping : List String)
    (now : PyDateTime) (em : PyDict EvKey CalendarEvent)
    (p1 p2 : CalendarEvent → Option String) :
    ∀ (l : PyDict EvKey CalendarEvent) (gids : PyDict EvKey String) (n : Nat),
      nonLinkActions (upsertPass mapping p1 now em l gids n) =
        nonLinkActions (upsertPass mapping p2 now em l gids n) := by
  have hlinks : ∀ (p : CalendarEvent → Option String) (k : EvKey)
      (e : CalendarEvent) (g : String) (b : GBody),
      nonLinkActions
        (if k.1 = "hipcamp" then
          if k.2 ∈ mapping then []
          else if pyTruthy (p e) = true then
            [SyncAction.link k g (enrichBody b ((p e).getD ""))]
          else []
        else []) = [] := by
    intro p k e g b
    by_cases h1 : k.1 = "hipcamp"
    · rw [if_pos h1]
      by_cases h2 : k.2 ∈ mapping
      · rw [if_pos h2]; rfl
      · rw [if_neg h2]
        by_cases h3 : pyTruthy (p e) = true
        · rw [if_pos h3]
          simp [nonLinkActions, SyncAction.isLink]
        · rw [if_neg h3]; rfl
    · rw [if_neg h1]; rfl
  have hlinks2 : ∀ (p : CalendarEvent → Option String) (k : EvKey)
      (e : CalendarEvent) (g : String) (b : GBody),
      nonLinkActions
        (if k.1 = "hipcamp" then
          if pyTruthy (p e) = true then
            [SyncAction.link k g (enrichBody b ((p e).getD ""))]
          else []
        else []) = [] := by
    intro p k e g b
    by_cases h1 : k.1 = "hipcamp"
    · rw [if_pos h1]
      by_cases h3 : pyTruthy (p e) = true
      · rw [if_pos h3]
        simp [nonLinkActions, SyncAction.isLink]
      · rw [if_neg h3]; rfl
    · rw [if_neg h1]; rfl
  intro l
  induction l with
  | nil => intro gids n; rfl
  | cons kv t ih =>
    obtain ⟨k, e⟩ := kv
    intro gids n
    rw [upsertPass, upsertPass]
    by_cases hend : (normalize_datetime e.end_time).instant ≤ now.instant
    · rw [if_pos hend, if_pos hend]
      exact ih gids n
    · rw [if_neg hend, if_neg hend]
      simp only []
      by_cases hem : (dictGet em k).isSome = true
      · rw [if_pos hem, if_pos hem]
        by_cases hg : pyTruthy (dictGet gids k) = true
        · rw [if_pos hg, if_pos hg]
          show nonLinkActions (_ :: (_ ++ _)) = nonLinkActions (_ :: (_ ++ _))
          unfold nonLinkActions
          rw [List.filter_cons, List.filter_cons, List.filter_append,
            List.filter_append]
          have e1 := hlinks p1 k e ((dictGet gids k).getD "")
            (buildBody k.1 k.2 e)
          have e2 := hlinks p2 k e ((dictGet gids k).getD "")
            (buildBody k.1 k.2 e)
          unfold nonLinkActions at e1 e2
          rw [e1, e2]
          have := ih gids n
          unfold nonLinkActions at this
          rw [this]
        · rw [if_neg hg, if_neg hg]
          exact ih gids n
      · rw [if_neg hem, if_neg hem]
        show nonLinkActions (_ :: (_ ++ _)) = nonLinkActions (_ :: (_ ++ _))
        unfold nonLinkActions
        rw [List.filter_cons, List.filter_cons, List.filter_append,
          List.filter_append]
        have e1 := hlinks2 p1 k e (freshGid n) (buildBody k.1 k.2 e)
        have e2 := hlinks2 p2 k e (freshGid n) (buildBody k.1 k.2 e)
        unfold nonLinkActions at e1 e2
        rw [e1, e2]
        have := ih (dictSet gids k (freshGid n)) (n + 1)
        unfold nonLinkActions at this
        rw [this]

/-- **C8.**  (1) When the availability check inside `create_hipcamp_booking`
reports rate status `ERROR` (the sold-out / overbooked / unavailable case),
propagation returns `none` ("no booking created") without raising — the
raised `ValueError` message always contains "unavailable" and is swallowed by
the substring handler.  (2) More generally, any exception inside the
propagation body is caught by the outer handler and surfaces as `none`, never
escaping into the reconciliation pass.  (3) The calendar operations of the
reconciliation run other than the enrichment-link writes are identical
whatever the propagation returns, so the calendar create/update that
triggered the propagation is unaffected. -/
theorem C8_soldout_benign_skip (env : CheckfrontEnv)
    (displayNames : PyDict String String)
    (cfMapping : PyDict String (String × String)) (e : CalendarEvent)
    (customer : PyDict String String) (site : String) (cfm : String × String)
    (hsite : reverseLookup displayNames (siteDisplayName e) = some site)
    (hcf : dictGet cfMapping site = some cfm)
    (hsess : pyTruthy env.sessionId = true)
    (hstat : env.rate.status = "ERROR") :
    create_hipcamp_booking env displayNames cfMapping e customer = none ∧
    (∀ env' dn' cfM' e' c' msg,
      chbBody env' dn' cfM' e' c' = .error msg →
      create_hipcamp_booking env' dn' cfM' e' c' = none) ∧
    (∀ existing hip cf now mapping p1 p2,
      nonLinkActions (runSync existing hip cf now mapping p1) =
        nonLinkActions (runSync existing hip cf now mapping p2)) := by
  refine ⟨?_, ?_, ?_⟩
  · have hsess' : create_booking_session env =
        Except.ok (env.sessionId.getD "") := by
      unfold create_booking_session
      rw [if_pos hsess]
    have haddi : add_item_to_session env cfm.2 =
        Except.error (unavailableMsg cfm.2 env.rate) := by
      unfold add_item_to_session
      rw [if_neg (not_not_intro hsess), if_pos hstat]
    unfold create_hipcamp_booking chbBody
    rw [hsite]
    simp only [hcf, hsess', haddi]
    rw [pySub_unavailableMsg cfm.2 env.rate]
    simp
  · intro env' dn' cfM' e' c' msg h
    unfold create_hipcamp_booking
    rw [h]
  · intro existing hip cf now mapping p1 p2
    unfold runSync nonLinkActions
    rw [List.filter_append, List.filter_append]
    have := upsertPass_nonlink_prop_independent mapping now
      (buildExistingMaps existing).1 p1 p2 (newEventsMap hip cf now)
      (buildExistingMaps existing).2 0
    unfold nonLinkActions at this
    rw [this]

/-- Witness for C8: a concrete environment whose rate status is `ERROR`
(sold out); the propagation returns `none`. -/
theorem C8_witness :
    reverseLookup [("hilltop1", "HT1")]
        (siteDisplayName
          { start_time := .date 0, end_time := .date 2, summary := "HT1 - A",
            description := some "Booking ID: #7", source := "hipcamp",
            source_id := some "7", google_event_id := none }) =
      some "hilltop1" ∧
    dictGet [("hilltop1", ("cat1", "item1"))] "hilltop1" =
      some ("cat1", "item1") ∧
    pyTruthy (CheckfrontEnv.sessionId
      { sessionId := some "sess1",
        rate := { status := "ERROR", errorId := "SOLDOUT",
                  errorTitle := "Sold out", slip := none },
        sessionItems := false, requiredFields := [],
        bookingResp := { requestError := none, bookingObjId := none,
                         bookingIdField := none, idField := none,
                         bookingObjBookingId := none } }) = true ∧
    RateInfo.status
      { status := "ERROR", errorId := "SOLDOUT", errorTitle := "Sold out",
        slip := none } = "ERROR" ∧
    create_hipcamp_booking
      { sessionId := some "sess1",
        rate := { status := "ERROR", errorId := "SOLDOUT",
                  errorTitle := "Sold out", slip := none },
        sessionItems := false, requiredFields := [],
        bookingResp := { requestError := none, bookingObjId := none,
                         bookingIdField := none, idField := none,
                         bookingObjBookingId := none } }
      [("hilltop1", "HT1")] [("hilltop1", ("cat1", "item1"))]
      { start_time := .date 0, end_time := .date 2, summary := "HT1 - A",
        description := some "Booking ID: #7", source := "hipcamp",
        source_id := some "7", google_event_id := none }
      [("name", "A")] = none :=
  ⟨by decide, by decide, by decide, rfl,
    (C8_soldout_benign_skip
      { sessionId := some "sess1",
        rate := { status := "ERROR", errorId := "SOLDOUT",
                  errorTitle := "Sold out", slip := none },
        sessionItems := false, requiredFields := [],
        bookingResp := { requestError := none, bookingObjId := none,
                         bookingIdField := none, idField := none,
                         bookingObjBookingId := none } }
      [("hilltop1", "HT1")] [("hilltop1", ("cat1", "item1"))]
      { start_time := .date 0, end_time := .date 2, summary := "HT1 - A",
        description := some "Booking ID: #7", source := "hipcamp",
        source_id := some "7", google_event_id := none }
      [("name", "A")] "hilltop1" ("cat1", "item1")
      (by decide) (by decide) (by decide) rfl).1⟩

/- ### Groundwork for claim C1: recovery of written bodies -/

theorem hasFreshPrefix_ne_empty (g : String) (h : hasFreshPrefix g = true) :
    g ≠ "" := by
  intro he
  subst he
  simp [hasFreshPrefix, List.isPrefixOf] at h

theorem recover_buildBody (k1 k2 : String) (e : CalendarEvent)
    (h : k1 = "hipcamp" ∨ k1 = "checkfront") :
    recoverSource (buildBody k1 k2 e).props = (k1, some k2) := by
  rcases h with h | h <;> subst h <;> simp [buildBody, recoverSource, dictGet]

theorem recover_enrichBody (k2 : String) (e : CalendarEvent) (c : String) :
    recoverSource (enrichBody (buildBody "hipcamp" k2 e) c).props =
      ("hipcamp", some k2) := by
  simp [buildBody, enrichBody, recoverSource, dictSet, dictGet]

theorem readBack_rawOfBody_tracked (g k1 k2 : String) (e : CalendarEvent)
    (hk1 : k1 = "hipcamp" ∨ k1 = "checkfront") (hk2 : k2 ≠ "")
    (b : GBody)
    (hb : b = buildBody k1 k2 e ∨
      (k1 = "hipcamp" ∧ ∃ c, b = enrichBody (buildBody k1 k2 e) c)) :
    pyTruthy (readBackEvent (rawOfBody g b)).source_id = true ∧
      eventKey (readBackEvent (rawOfBody g b)) = (k1, k2) := by
  have hrec : recoverSource b.props = (k1, some k2) := by
    rcases hb with hb | ⟨hh, c, hb⟩
    · subst hb
      exact recover_buildBody k1 k2 e hk1
    · subst hb
      subst hh
      exact recover_enrichBody k2 e c
  constructor
  · show pyTruthy (recoverSource (rawOfBody g b).props).2 = true
    show pyTruthy (recoverSource b.props).2 = true
    rw [hrec]
    exact (pyTruthy_some_iff _).mpr hk2
  · show ((recoverSource (rawOfBody g b).props).1,
      (recoverSource (rawOfBody g b).props).2.getD "") = (k1, k2)
    show ((recoverSource b.props).1, (recoverSource b.props).2.getD "") =
      (k1, k2)
    rw [hrec]
    rfl

/- ### Groundwork for claim C1: tracked-key uniqueness -/

theorem mem_trackedKeys_intro (es : List CalendarEvent) (e : CalendarEvent)
    (he : e ∈ es) (ht : pyTruthy e.source_id = true) :
    eventKey e ∈ trackedKeys es :=
  List.mem_filterMap.mpr ⟨e, he, by rw [if_pos ht]⟩

theorem tracked_unique (es : List CalendarEvent)
    (hnd : (trackedKeys es).Nodup) :
    ∀ e e', e ∈ es → e' ∈ es → pyTruthy e.source_id = true →
      pyTruthy e'.source_id = true → eventKey e = eventKey e' → e = e' := by
  induction es with
  | nil => intro e e' he; simp at he
  | cons e₀ t ih =>
    intro e e' he he' ht ht' hk
    have hndt : (trackedKeys t).Nodup ∧
        (pyTruthy e₀.source_id = true → eventKey e₀ ∉ trackedKeys t) := by
      by_cases h0 : pyTruthy e₀.source_id = true
      · have : trackedKeys (e₀ :: t) = eventKey e₀ :: trackedKeys t := by
          simp [trackedKeys, List.filterMap_cons, h0]
        rw [this] at hnd
        exact ⟨(List.nodup_cons.mp hnd).2,
          fun _ => (List.nodup_cons.mp hnd).1⟩
      · have : trackedKeys (e₀ :: t) = trackedKeys t := by
          simp [trackedKeys, List.filterMap_cons, h0]
        rw [this] at hnd
        exact ⟨hnd, fun hc => absurd hc h0⟩
    rcases List.mem_cons.mp he with h1 | h1 <;>
      rcases List.mem_cons.mp he' with h2 | h2
    · rw [h1, h2]
    · subst h1
      exact absurd (hk ▸ mem_trackedKeys_intro t e' h2 ht') (hndt.2 ht)
    · subst h2
      exact absurd (hk ▸ mem_trackedKeys_intro t e h1 ht) (hndt.2 ht')
    · exact ih hndt.1 e e' h1 h2 ht ht' hk

theorem nodup_gid_unique (S : List RawGEvent)
    (h : (S.map RawGEvent.gid).Nodup) :
    ∀ r r', r ∈ S → r' ∈ S → r.gid = r'.gid → r = r' := by
  induction S with
  | nil => intro r r' hr; simp at hr
  | cons s t ih =>
    intro r r' hr hr' hg
    rw [List.map_cons, List.nodup_cons] at h
    rcases List.mem_cons.mp hr with h1 | h1 <;>
      rcases List.mem_cons.mp hr' with h2 | h2
    · rw [h1, h2]
    · subst h1
      exact absurd (hg ▸ List.mem_map.mpr ⟨r', h2, rfl⟩) h.1
    · subst h2
      exact absurd (hg ▸ List.mem_map.mpr ⟨r, h1, rfl⟩) h.1
    · exact ih h.2 r r' h1 h2 hg

/- ### Groundwork for claim C1: map values under unique tracked keys -/

theorem buildExistingMaps_foldl_isSome1 :
    ∀ (l : List CalendarEvent)
      (m : PyDict EvKey CalendarEvent × PyDict EvKey String) (k : EvKey),
      ((dictGet m.1 k).isSome = true ∨
        ∃ e, e ∈ l ∧ pyTruthy e.source_id = true ∧ eventKey e = k) →
      (dictGet (l.foldl
        (fun maps e =>
          if pyTruthy e.source_id then
            (dictSet maps.1 (eventKey e) e,
             if pyTruthy e.google_event_id then
               dictSet maps.2 (eventKey e) (e.google_event_id.getD "")
             else maps.2)
          else maps) m).1 k).isSome = true := by
  intro l
  induction l with
  | nil =>
    intro m k h
    rcases h with h | ⟨e, he, _⟩
    · exact h
    · simp at he
  | cons e₀ t ih =>
    intro m k h
    rw [List.foldl_cons]
    rcases h with h | ⟨e, he, ht, hk⟩
    · refine ih _ k (Or.inl ?_)
      by_cases hc : pyTruthy e₀.source_id = true
      · rw [if_pos hc]
        exact dictGet_isSome_dictSet _ _ _ _ h
      · rwa [if_neg hc]
    · rcases List.mem_cons.mp he with h1 | h1
      · subst h1
        refine ih _ k (Or.inl ?_)
        rw [if_pos ht]
        subst hk
        simp [dictGet_dictSet_self]
      · exact ih _ k (Or.inr ⟨e, h1, ht, hk⟩)

theorem buildExistingMaps_foldl_isSome2 :
    ∀ (l : List CalendarEvent)
      (m : PyDict EvKey CalendarEvent × PyDict EvKey String) (k : EvKey),
      ((dictGet m.2 k).isSome = true ∨
        ∃ e, e ∈ l ∧ pyTruthy e.source_id = true ∧
          pyTruthy e.google_event_id = true ∧ eventKey e = k) →
      (dictGet (l.foldl
        (fun maps e =>
          if pyTruthy e.source_id then
            (dictSet maps.1 (eventKey e) e,
             if pyTruthy e.google_event_id then
               dictSet maps.2 (eventKey e) (e.google_event_id.getD "")
             else maps.2)
          else maps) m).2 k).isSome = true := by
  intro l
  induction l with
  | nil =>
    intro m k h
    rcases h with h | ⟨e, he, _⟩
    · exact h
    · simp at he
  | cons e₀ t ih =>
    intro m k h
    rw [List.foldl_cons]
    rcases h with h | ⟨e, he, ht, hg, hk⟩
    · refine ih _ k (Or.inl ?_)
      by_cases hc : pyTruthy e₀.source_id = true
      · rw [if_pos hc]
        by_cases hgg : pyTruthy e₀.google_event_id = true
        · rw [if_pos hgg]
          exact dictGet_isSome_dictSet _ _ _ _ h
        · rwa [if_neg hgg]
      · rwa [if_neg hc]
    · rcases List.mem_cons.mp he with h1 | h1
      · subst h1
        refine ih _ k (Or.inl ?_)
        rw [if_pos ht, if_pos hg]
        subst hk
        simp [dictGet_dictSet_self]
      · exact ih _ k (Or.inr ⟨e, h1, ht, hg, hk⟩)

theorem buildExistingMaps_get1_unique (ex : List CalendarEvent)
    (hnd : (trackedKeys ex).Nodup) (e : CalendarEvent)
    (he : e ∈ ex) (ht : pyTruthy e.source_id = true) :
    dictGet (buildExistingMaps ex).1 (eventKey e) = some e := by
  have hs : (dictGet (buildExistingMaps ex).1 (eventKey e)).isSome = true :=
    buildExistingMaps_foldl_isSome1 ex ([], []) (eventKey e)
      (Or.inr ⟨e, he, ht, rfl⟩)
  obtain ⟨e', he'⟩ := Option.isSome_iff_exists.mp hs
  obtain ⟨hm, ht', hk⟩ :=
    buildExistingMaps_mem1 ex _ (mem_of_dictGet_eq_some _ _ _ he')
  obtain rfl := tracked_unique ex hnd e' e hm he ht' ht hk.symm
  exact he'

theorem buildExistingMaps_get2_unique (ex : List CalendarEvent)
    (hnd : (trackedKeys ex).Nodup) (e : CalendarEvent)
    (he : e ∈ ex) (ht : pyTruthy e.source_id = true)
    (hg : pyTruthy e.google_event_id = true) :
    dictGet (buildExistingMaps ex).2 (eventKey e) =
      some (e.google_event_id.getD "") := by
  have hs : (dictGet (buildExistingMaps ex).2 (eventKey e)).isSome = true :=
    buildExistingMaps_foldl_isSome2 ex ([], []) (eventKey e)
      (Or.inr ⟨e, he, ht, hg, rfl⟩)
  obtain ⟨g', hg'⟩ := Option.isSome_iff_exists.mp hs
  obtain ⟨e', hm, ht', hgid, _, hk⟩ :=
    buildExistingMaps_mem2 ex _ (mem_of_dictGet_eq_some _ _ _ hg')
  obtain rfl := tracked_unique ex hnd e' e hm he ht' ht hk.symm
  rw [hg', hgid]
  rfl

/- ### Groundwork for claim C1: emission and fresh-id discipline -/

theorem deletionPass_emits (gids : PyDict EvKey String)
    (nm : PyDict EvKey CalendarEvent) (now : PyDateTime) (k : EvKey)
    (e : CalendarEvent) (g : String) :
    ∀ (emL : PyDict EvKey CalendarEvent), (k, e) ∈ emL →
      dictGet nm k = none →
      now.instant < (normalize_datetime e.end_time).instant →
      dictGet gids k = some g → g ≠ "" →
      SyncAction.delete k g ∈ deletionPass gids nm now emL := by
  intro emL
  induction emL with
  | nil => intro hm; simp at hm
  | cons kv t ih =>
    obtain ⟨k₀, e₀⟩ := kv
    intro hm hnone hlt hg hgne
    rw [deletionPass]
    rcases List.mem_cons.mp hm with h1 | h1
    · rw [Prod.mk.injEq] at h1
      obtain ⟨hk, he⟩ := h1
      subst hk
      subst he
      refine List.mem_append.mpr (Or.inl ?_)
      have h1 : (dictGet nm k).isNone = true := by rw [hnone]; rfl
      rw [if_pos h1, if_neg (not_le.mpr hlt)]
      have h2 : pyTruthy (dictGet gids k) = true := by
        rw [hg]
        exact (pyTruthy_some_iff _).mpr hgne
      rw [if_pos h2, hg]
      exact List.mem_singleton.mpr rfl
    · exact List.mem_append.mpr (Or.inr (ih h1 hnone hlt hg hgne))

theorem upsertPass_emits_create (mapping : List String)
    (prop : CalendarEvent → Option String) (now : PyDateTime)
    (em : PyDict EvKey CalendarEvent) (k : EvKey) (e : CalendarEvent) :
    ∀ (l : PyDict EvKey CalendarEvent) (gids : PyDict EvKey String) (n : Nat),
      (k, e) ∈ l → (dictKeys l).Nodup →
      dictGet em k = none →
      now.instant < (normalize_datetime e.end_time).instant →
      ∃ n', SyncAction.create k (freshGid n') (buildBody k.1 k.2 e) ∈
        upsertPass mapping prop now em l gids n := by
  intro l
  induction l with
  | nil => intro gids n hm; simp at hm
  | cons kv t ih =>
    obtain ⟨k₀, e₀⟩ := kv
    intro gids n hm hnd hem hlt
    have hndt : (dictKeys t).Nodup := by
      simp only [dictKeys, List.map_cons, List.nodup_cons] at hnd
      exact hnd.2
    rcases List.mem_cons.mp hm with h1 | h1
    · rw [Prod.mk.injEq] at h1
      obtain ⟨hk, he⟩ := h1
      subst hk
      subst he
      refine ⟨n, ?_⟩
      rw [upsertPass, if_neg (not_le.mpr hlt)]
      simp only []
      rw [if_neg (by rw [hem]; simp : ¬ (dictGet em k).isSome = true)]
      exact List.mem_cons.mpr (Or.inl rfl)
    · rw [upsertPass]
      by_cases hend : (normalize_datetime e₀.end_time).instant ≤ now.instant
      · rw [if_pos hend]
        exact ih gids n h1 hndt hem hlt
      · rw [if_neg hend]
        simp only []
        by_cases hem0 : (dictGet em k₀).isSome = true
        · rw [if_pos hem0]
          by_cases hg0 : pyTruthy (dictGet gids k₀) = true
          · rw [if_pos hg0]
            obtain ⟨n', hn'⟩ := ih gids n h1 hndt hem hlt
            exact ⟨n', List.mem_cons.mpr (Or.inr
              (List.mem_append.mpr (Or.inr hn')))⟩
          · rw [if_neg hg0]
            exact ih gids n h1 hndt hem hlt
        · rw [if_neg hem0]
          obtain ⟨n', hn'⟩ := ih (dictSet gids k₀ (freshGid n)) (n + 1) h1
            hndt hem hlt
          exact ⟨n', List.mem_cons.mpr (Or.inr
            (List.mem_append.mpr (Or.inr hn')))⟩

theorem upsertPass_no_delete (mapping : List String)
    (prop : CalendarEvent → Option String) (now : PyDateTime)
    (em : PyDict EvKey CalendarEvent) (l : PyDict EvKey CalendarEvent)
    (gids : PyDict EvKey String) (n : Nat) :
    ∀ a ∈ upsertPass mapping prop now em l gids n, a.isDelete = false := by
  intro a h
  obtain ⟨k, e, _, _, hdisj⟩ := mem_upsertPass _ _ _ _ _ _ _ _ h
  rcases hdisj with ⟨g, rfl, _, _⟩ | ⟨g, rfl, _⟩ | ⟨g, c, rfl, _⟩ <;> rfl

theorem deletionPass_all_delete (gids : PyDict EvKey String)
    (nm : PyDict EvKey CalendarEvent) (now : PyDateTime)
    (emL : PyDict EvKey CalendarEvent) :
    ∀ a ∈ deletionPass gids nm now emL, a.isDelete = true := by
  intro a h
  obtain ⟨k, e, g, _, rfl, _⟩ := mem_deletionPass _ _ _ _ _ h
  rfl

theorem upsertPass_nonfresh_gid (mapping : List String)
    (prop : CalendarEvent → Option String) (now : PyDateTime)
    (em : PyDict EvKey CalendarEvent) (P : EvKey → String → Prop) :
    ∀ (l : PyDict EvKey CalendarEvent) (gids : PyDict EvKey String) (n : Nat),
      (∀ k g, dictGet gids k = some g → hasFreshPrefix g = false → P k g) →
      ∀ a ∈ upsertPass mapping prop now em l gids n,
        hasFreshPrefix a.gidOf = false →
        P a.keyOf a.gidOf ∧ a.isCreate = false := by
  intro l
  induction l with
  | nil => intro gids n _ a h; simp [upsertPass] at h
  | cons kv t ih =>
    obtain ⟨k, e⟩ := kv
    intro gids n hinv a h hnf
    rw [upsertPass] at h
    by_cases hend : (normalize_datetime e.end_time).instant ≤ now.instant
    · rw [if_pos hend] at h
      exact ih gids n hinv a h hnf
    · rw [if_neg hend] at h
      simp only [] at h
      by_cases hem : (dictGet em k).isSome = true
      · rw [if_pos hem] at h
        by_cases hg : pyTruthy (dictGet gids k) = true
        · rw [if_pos hg] at h
          obtain ⟨g, hgs, _⟩ := (pyTruthy_iff _).mp hg
          rcases List.mem_cons.mp h with h' | h'
          · subst h'
            rw [SyncAction.gidOf, hgs] at hnf ⊢
            exact ⟨hinv k g hgs hnf, rfl⟩
          · rcases List.mem_append.mp h' with h'' | h''
            · by_cases hhc : k.1 = "hipcamp"
              · rw [if_pos hhc] at h''
                by_cases hmap : k.2 ∈ mapping
                · rw [if_pos hmap] at h''
                  simp at h''
                · rw [if_neg hmap] at h''
                  by_cases hp : pyTruthy (prop e) = true
                  · rw [if_pos hp] at h''
                    obtain rfl := List.mem_singleton.mp h''
                    rw [SyncAction.gidOf, hgs] at hnf ⊢
                    exact ⟨hinv k g hgs hnf, rfl⟩
                  · rw [if_neg hp] at h''
                    simp at h''
              · rw [if_neg hhc] at h''
                simp at h''
            · exact ih gids n hinv a h'' hnf
        · rw [if_neg hg] at h
          exact ih gids n hinv a h hnf
      · rw [if_neg hem] at h
        rcases List.mem_cons.mp h with h' | h'
        · subst h'
          rw [SyncAction.gidOf] at hnf
          exact absurd (hasFreshPrefix_freshGid n) (by rw [hnf]; simp)
        · rcases List.mem_append.mp h' with h'' | h''
          · by_cases hhc : k.1 = "hipcamp"
            · rw [if_pos hhc] at h''
              by_cases hp : pyTruthy (prop e) = true
              · rw [if_pos hp] at h''
                obtain rfl := List.mem_singleton.mp h''
                rw [SyncAction.gidOf] at hnf
                exact absurd (hasFreshPrefix_freshGid n) (by rw [hnf]; simp)
              · rw [if_neg hp] at h''
                simp at h''
            · rw [if_neg hhc] at h''
              simp at h''
          · refine ih (dictSet gids k (freshGid n)) (n + 1) ?_ a h'' hnf
            intro k' g' hget hnf'
            rcases dictGet_dictSet_cases gids k k' (freshGid n) g' hget with
              ⟨_, hgf⟩ | hold
            · exact absurd (hgf ▸ hasFreshPrefix_freshGid n)
                (by rw [hnf']; simp)
            · exact hinv k' g' hold hnf'

theorem upsertPass_fresh_ge (mapping : List String)
    (prop : CalendarEvent → Option String) (now : PyDateTime)
    (em : PyDict EvKey CalendarEvent) :
    ∀ (l : PyDict EvKey CalendarEvent) (gids : PyDict EvKey String) (n : Nat),
      (dictKeys l).Nodup →
      (∀ k, k ∈ dictKeys l → ∀ g, dictGet gids k = some g →
        hasFreshPrefix g = false) →
      ∀ a ∈ upsertPass mapping prop now em l gids n,
        ∀ n', a.gidOf = freshGid n' → n ≤ n' := by
  intro l
  induction l with
  | nil => intro gids n _ _ a h; simp [upsertPass] at h
  | cons kv t ih =>
    obtain ⟨k, e⟩ := kv
    intro gids n hnd hinv a h n' hgf
    have hndh : k ∉ dictKeys t ∧ (dictKeys t).Nodup := by
      simp only [dictKeys, List.map_cons, List.nodup_cons] at hnd
      exact hnd
    have hinvt : ∀ k', k' ∈ dictKeys t → ∀ g, dictGet gids k' = some g →
        hasFreshPrefix g = false := by
      intro k' hk' g hg
      exact hinv k' (List.mem_cons.mpr (Or.inr hk')) g hg
    rw [upsertPass] at h
    by_cases hend : (normalize_datetime e.end_time).instant ≤ now.instant
    · rw [if_pos hend] at h
      exact ih gids n hndh.2 hinvt a h n' hgf
    · rw [if_neg hend] at h
      simp only [] at h
      by_cases hem : (dictGet em k).isSome = true
      · rw [if_pos hem] at h
        by_cases hg : pyTruthy (dictGet gids k) = true
        · rw [if_pos hg] at h
          obtain ⟨g, hgs, _⟩ := (pyTruthy_iff _).mp hg
          have hgnf : hasFreshPrefix g = false :=
            hinv k (List.mem_cons.mpr (Or.inl rfl)) g hgs
          rcases List.mem_cons.mp h with h' | h'
          · subst h'
            rw [SyncAction.gidOf, hgs] at hgf
            simp only [Option.getD_some] at hgf
            rw [hgf, hasFreshPrefix_freshGid] at hgnf
            simp at hgnf
          · rcases List.mem_append.mp h' with h'' | h''
            · by_cases hhc : k.1 = "hipcamp"
              · rw [if_pos hhc] at h''
                by_cases hmap : k.2 ∈ mapping
                · rw [if_pos hmap] at h''
                  simp at h''
                · rw [if_neg hmap] at h''
                  by_cases hp : pyTruthy (prop e) = true
                  · rw [if_pos hp] at h''
                    obtain rfl := List.mem_singleton.mp h''
                    rw [SyncAction.gidOf, hgs] at hgf
                    simp only [Option.getD_some] at hgf
                    rw [hgf, hasFreshPrefix_freshGid] at hgnf
                    simp at hgnf
                  · rw [if_neg hp] at h''
                    simp at h''
              · rw [if_neg hhc] at h''
                simp at h''
            · exact ih gids n hndh.2 hinvt a h'' n' hgf
        · rw [if_neg hg] at h
          exact ih gids n hndh.2 hinvt a h n' hgf
      · rw [if_neg hem] at h
        have hinvt' : ∀ k', k' ∈ dictKeys t → ∀ g,
            dictGet (dictSet gids k (freshGid n)) k' = some g →
            hasFreshPrefix g = false := by
          intro k' hk' g hg'
          have hne : k' ≠ k := fun he => hndh.1 (he ▸ hk')
          rw [dictGet_dictSet_ne gids k k' (freshGid n) hne] at hg'
          exact hinvt k' hk' g hg'
        rcases List.mem_cons.mp h with h' | h'
        · subst h'
          rw [SyncAction.gidOf] at hgf
          exact le_of_eq (freshGid_injective n n' hgf)
        · rcases List.mem_append.mp h' with h'' | h''
          · by_cases hhc : k.1 = "hipcamp"
            · rw [if_pos hhc] at h''
              by_cases hp : pyTruthy (prop e) = true
              · rw [if_pos hp] at h''
                obtain rfl := List.mem_singleton.mp h''
                rw [SyncAction.gidOf] at hgf
                exact le_of_eq (freshGid_injective n n' hgf)
              · rw [if_neg hp] at h''
                simp at h''
            · rw [if_neg hhc] at h''
              simp at h''
          · exact Nat.le_of_succ_le
              (ih (dictSet gids k (freshGid n)) (n + 1) hndh.2 hinvt' a h''
                n' hgf)

theorem upsertPass_fresh_unique (mapping : List String)
    (prop : CalendarEvent → Option String) (now : PyDateTime)
    (em : PyDict EvKey CalendarEvent) :
    ∀ (l : PyDict EvKey CalendarEvent) (gids : PyDict EvKey String) (n : Nat),
      (dictKeys l).Nodup →
      (∀ k, k ∈ dictKeys l → ∀ g, dictGet gids k = some g →
        hasFreshPrefix g = false) →
      ∀ a b, a ∈ upsertPass mapping prop now em l gids n →
        b ∈ upsertPass mapping prop now em l gids n →
        ∀ n', a.gidOf = freshGid n' → b.gidOf = freshGid n' →
          a.keyOf = b.keyOf := by
  intro l
  induction l with
  | nil => intro gids n _ _ a b ha; simp [upsertPass] at ha
  | cons kv t ih =>
    obtain ⟨k, e⟩ := kv
    intro gids n hnd hinv a b ha hb n' hga hgb
    have hndh : k ∉ dictKeys t ∧ (dictKeys t).Nodup := by
      simp only [dictKeys, List.map_cons, List.nodup_cons] at hnd
      exact hnd
    have hinvt : ∀ k', k' ∈ dictKeys t → ∀ g, dictGet gids k' = some g →
        hasFreshPrefix g = false := by
      intro k' hk' g hg
      exact hinv k' (List.mem_cons.mpr (Or.inr hk')) g hg
    rw [upsertPass] at ha hb
    by_cases hend : (normalize_datetime e.end_time).instant ≤ now.instant
    · rw [if_pos hend] at ha hb
      exact ih gids n hndh.2 hinvt a b ha hb n' hga hgb
    · rw [if_neg hend] at ha hb
      simp only [] at ha hb
      by_cases hem : (dictGet em k).isSome = true
      · rw [if_pos hem] at ha hb
        by_cases hg : pyTruthy (dictGet gids k) = true
        · rw [if_pos hg] at ha hb
          obtain ⟨g, hgs, _⟩ := (pyTruthy_iff _).mp hg
          have hgnf : hasFreshPrefix g = false :=
            hinv k (List.mem_cons.mpr (Or.inl rfl)) g hgs
          have hrec : ∀ x, x ∈ SyncAction.update k ((dictGet gids k).getD "")
                (buildBody k.1 k.2 e) ::
                ((if k.1 = "hipcamp" then
                    if k.2 ∈ mapping then []
                    else if pyTruthy (prop e) = true then
                      [SyncAction.link k ((dictGet gids k).getD "")
                        (enrichBody (buildBody k.1 k.2 e)
                          ((prop e).getD ""))]
                    else []
                  else []) ++ upsertPass mapping prop now em t gids n) →
              x.gidOf = freshGid n' →
              x ∈ upsertPass mapping prop now em t gids n := by
            intro x hx hgx
            rcases List.mem_cons.mp hx with hx' | hx'
            · subst hx'
              rw [SyncAction.gidOf, hgs] at hgx
              simp only [Option.getD_some] at hgx
              rw [hgx, hasFreshPrefix_freshGid] at hgnf
              simp at hgnf
            · rcases List.mem_append.mp hx' with hx'' | hx''
              · by_cases hhc : k.1 = "hipcamp"
                · rw [if_pos hhc] at hx''
                  by_cases hmap : k.2 ∈ mapping
                  · rw [if_pos hmap] at hx''
                    simp at hx''
                  · rw [if_neg hmap] at hx''
                    by_cases hp : pyTruthy (prop e) = true
                    · rw [if_pos hp] at hx''
                      obtain rfl := List.mem_singleton.mp hx''
                      rw [SyncAction.gidOf, hgs] at hgx
                      simp only [Option.getD_some] at hgx
                      rw [hgx, hasFreshPrefix_freshGid] at hgnf
                      simp at hgnf
                    · rw [if_neg hp] at hx''
                      simp at hx''
                · rw [if_neg hhc] at hx''
                  simp at hx''
              · exact hx''
          exact ih gids n hndh.2 hinvt a b (hrec a ha hga) (hrec b hb hgb)
            n' hga hgb
        · rw [if_neg hg] at ha hb
          exact ih gids n hndh.2 hinvt a b ha hb n' hga hgb
      · rw [if_neg hem] at ha hb
        have hinvt' : ∀ k', k' ∈ dictKeys t → ∀ g,
            dictGet (dictSet gids k (freshGid n)) k' = some g →
            hasFreshPrefix g = false := by
          intro k' hk' g hg'
          have hne : k' ≠ k := fun heq => hndh.1 (heq ▸ hk')
          rw [dictGet_dictSet_ne gids k k' (freshGid n) hne] at hg'
          exact hinvt k' hk' g hg'
        have hsplit : ∀ x, x ∈ SyncAction.create k (freshGid n)
              (buildBody k.1 k.2 e) ::
              ((if k.1 = "hipcamp" then
                  if pyTruthy (prop e) = true then
                    [SyncAction.link k (freshGid n)
                      (enrichBody (buildBody k.1 k.2 e) ((prop e).getD ""))]
                  else []
                else []) ++
                upsertPass mapping prop now em t
                  (dictSet gids k (freshGid n)) (n + 1)) →
            (x.keyOf = k ∧ x.gidOf = freshGid n) ∨
              x ∈ upsertPass mapping prop now em t
                (dictSet gids k (freshGid n)) (n + 1) := by
          intro x hx
          rcases List.mem_cons.mp hx with hx' | hx'
          · subst hx'
            exact Or.inl ⟨rfl, rfl⟩
          · rcases List.mem_append.mp hx' with hx'' | hx''
            · by_cases hhc : k.1 = "hipcamp"
              · rw [if_pos hhc] at hx''
                by_cases hp : pyTruthy (prop e) = true
                · rw [if_pos hp] at hx''
                  obtain rfl := List.mem_singleton.mp hx''
                  exact Or.inl ⟨rfl, rfl⟩
                · rw [if_neg hp] at hx''
                  simp at hx''
              · rw [if_neg hhc] at hx''
                simp at hx''
            · exact Or.inr hx''
        rcases hsplit a ha with ⟨hka, hgfa⟩ | hra <;>
          rcases hsplit b hb with ⟨hkb, hgfb⟩ | hrb
        · rw [hka, hkb]
        · have hnn : n = n' := freshGid_injective n n' (hgfa ▸ hga)
          have := upsertPass_fresh_ge mapping prop now em t
            (dictSet gids k (freshGid n)) (n + 1) hndh.2 hinvt' b hrb n' hgb
          omega
        · have hnn : n = n' := freshGid_injective n n' (hgfb ▸ hgb)
          have := upsertPass_fresh_ge mapping prop now em t
            (dictSet gids k (freshGid n)) (n + 1) hndh.2 hinvt' a hra n' hga
          omega
        · exact ih (dictSet gids k (freshGid n)) (n + 1) hndh.2 hinvt' a b
            hra hrb n' hga hgb

/- ### Groundwork for claim C1: effect of applying the operations -/

theorem applyActions_append (raws : List RawGEvent) (as bs : List SyncAction) :
    applyActions raws (as ++ bs) = applyActions (applyActions raws as) bs :=
  List.foldl_append _ _ _ _

theorem applyActions_cons (raws : List RawGEvent) (a : SyncAction)
    (t : List SyncAction) :
    applyActions raws (a :: t) = applyActions (applyAction raws a) t :=
  rfl

theorem isDelete_shape (a : SyncAction) (h : a.isDelete = true) :
    ∃ k g, a = SyncAction.delete k g := by
  cases a with
  | delete k g => exact ⟨k, g, rfl⟩
  | create k g b => simp [SyncAction.isDelete] at h
  | update k g b => simp [SyncAction.isDelete] at h
  | link k g b => simp [SyncAction.isDelete] at h

theorem applyActions_deletes_subset :
    ∀ (D : List SyncAction) (raws : List RawGEvent),
      (∀ a ∈ D, a.isDelete = true) →
      ∀ r ∈ applyActions raws D, r ∈ raws := by
  intro D
  induction D with
  | nil => intro raws _ r h; exact h
  | cons a t ih =>
    intro raws hD r h
    rw [applyActions_cons] at h
    have hr : r ∈ applyAction raws a := by
      exact ih (applyAction raws a)
        (fun a' ha' => hD a' (List.mem_cons.mpr (Or.inr ha'))) r h
    obtain ⟨k, g, rfl⟩ := isDelete_shape a (hD a (List.mem_cons.mpr (Or.inl rfl)))
    exact (List.mem_filter.mp hr).1

theorem applyActions_deletes_keep :
    ∀ (D : List SyncAction) (raws : List RawGEvent) (r : RawGEvent),
      (∀ a ∈ D, a.isDelete = true) → r ∈ raws →
      (∀ a ∈ D, a.gidOf ≠ r.gid) → r ∈ applyActions raws D := by
  intro D
  induction D with
  | nil => intro raws r _ hr _; exact hr
  | cons a t ih =>
    intro raws r hD hr hgid
    rw [applyActions_cons]
    refine ih (applyAction raws a) r
      (fun a' ha' => hD a' (List.mem_cons.mpr (Or.inr ha'))) ?_
      (fun a' ha' => hgid a' (List.mem_cons.mpr (Or.inr ha')))
    obtain ⟨k, g, rfl⟩ := isDelete_shape a (hD a (List.mem_cons.mpr (Or.inl rfl)))
    refine List.mem_filter.mpr ⟨hr, ?_⟩
    have := hgid _ (List.mem_cons.mpr (Or.inl rfl))
    rw [SyncAction.gidOf] at this
    simp [Ne.symm this]

theorem applyActions_deletes_excl :
    ∀ (D : List SyncAction) (raws : List RawGEvent) (r : RawGEvent),
      (∀ a ∈ D, a.isDelete = true) → r ∈ applyActions raws D →
      ∀ a ∈ D, r.gid ≠ a.gidOf := by
  intro D
  induction D with
  | nil => intro raws r _ _ a ha; simp at ha
  | cons a t ih =>
    intro raws r hD hr a' ha'
    rw [applyActions_cons] at hr
    rcases List.mem_cons.mp ha' with h1 | h1
    · subst h1
      have hsub : r ∈ applyAction raws a' :=
        applyActions_deletes_subset t (applyAction raws a')
          (fun x hx => hD x (List.mem_cons.mpr (Or.inr hx))) r hr
      obtain ⟨k, g, rfl⟩ := isDelete_shape a'
        (hD a' (List.mem_cons.mpr (Or.inl rfl)))
      have := (List.mem_filter.mp hsub).2
      rw [SyncAction.gidOf]
      simpa using this
    · exact ih (applyAction raws a) r
        (fun x hx => hD x (List.mem_cons.mpr (Or.inr hx))) hr a' h1

theorem applyActions_body_prov :
    ∀ (acts : List SyncAction) (raws : List RawGEvent) (r : RawGEvent),
      r ∈ applyActions raws acts →
      r ∈ raws ∨ ∃ a, a ∈ acts ∧ ∃ k g b,
        (a = SyncAction.create k g b ∨ a = SyncAction.update k g b ∨
          a = SyncAction.link k g b) ∧ r = rawOfBody g b := by
  intro acts
  induction acts with
  | nil => intro raws r h; exact Or.inl h
  | cons a t ih =>
    intro raws r h
    rw [applyActions_cons] at h
    rcases ih (applyAction raws a) r h with h' | ⟨a', ha', rest⟩
    · cases a with
      | delete k g => exact Or.inl (List.mem_filter.mp h').1
      | create k g b =>
        rcases List.mem_append.mp h' with h'' | h''
        · exact Or.inl h''
        · obtain rfl := List.mem_singleton.mp h''
          exact Or.inr ⟨_, List.mem_cons.mpr (Or.inl rfl), k, g, b,
            Or.inl rfl, rfl⟩
      | update k g b =>
        obtain ⟨r₀, hr₀, heq⟩ := List.mem_map.mp h'
        by_cases hgid : r₀.gid = g
        · rw [if_pos hgid] at heq
          refine Or.inr ⟨_, List.mem_cons.mpr (Or.inl rfl), k, g, b,
            Or.inr (Or.inl rfl), ?_⟩
          rw [← heq, hgid]
        · rw [if_neg hgid] at heq
          exact Or.inl (heq ▸ hr₀)
      | link k g b =>
        obtain ⟨r₀, hr₀, heq⟩ := List.mem_map.mp h'
        by_cases hgid : r₀.gid = g
        · rw [if_pos hgid] at heq
          refine Or.inr ⟨_, List.mem_cons.mpr (Or.inl rfl), k, g, b,
            Or.inr (Or.inr rfl), ?_⟩
          rw [← heq, hgid]
        · rw [if_neg hgid] at heq
          exact Or.inl (heq ▸ hr₀)
    · exact Or.inr ⟨a', List.mem_cons.mpr (Or.inr ha'), rest⟩

theorem applyActions_nodelete_gid_surv :
    ∀ (acts : List SyncAction) (raws : List RawGEvent) (r : RawGEvent),
      (∀ a ∈ acts, a.isDelete = false) → r ∈ raws →
      ∃ r', r' ∈ applyActions raws acts ∧ r'.gid = r.gid := by
  intro acts
  induction acts with
  | nil => intro raws r _ hr; exact ⟨r, hr, rfl⟩
  | cons a t ih =>
    intro raws r hND hr
    rw [applyActions_cons]
    have hstep : ∃ r₁, r₁ ∈ applyAction raws a ∧ r₁.gid = r.gid := by
      cases a with
      | delete k g =>
        have := hND _ (List.mem_cons.mpr (Or.inl rfl))
        simp [SyncAction.isDelete] at this
      | create k g b => exact ⟨r, List.mem_append.mpr (Or.inl hr), rfl⟩
      | update k g b =>
        refine ⟨if r.gid = g then rawOfBody r.gid b else r,
          List.mem_map.mpr ⟨r, hr, rfl⟩, ?_⟩
        by_cases hgid : r.gid = g
        · rw [if_pos hgid]; rfl
        · rw [if_neg hgid]
      | link k g b =>
        refine ⟨if r.gid = g then rawOfBody r.gid b else r,
          List.mem_map.mpr ⟨r, hr, rfl⟩, ?_⟩
        by_cases hgid : r.gid = g
        · rw [if_pos hgid]; rfl
        · rw [if_neg hgid]
    obtain ⟨r₁, hr₁, hg₁⟩ := hstep
    obtain ⟨r', hr', hg'⟩ := ih (applyAction raws a) r₁
      (fun x hx => hND x (List.mem_cons.mpr (Or.inr hx))) hr₁
    exact ⟨r', hr', hg' ▸ hg₁ ▸ rfl⟩

theorem applyActions_create_surv :
    ∀ (acts : List SyncAction) (raws : List RawGEvent) (k : EvKey)
      (g : String) (b : GBody),
      (∀ a ∈ acts, a.isDelete = false) →
      SyncAction.create k g b ∈ acts →
      ∃ r', r' ∈ applyActions raws acts ∧ r'.gid = g := by
  intro acts
  induction acts with
  | nil => intro raws k g b _ hc; simp at hc
  | cons a t ih =>
    intro raws k g b hND hc
    rw [applyActions_cons]
    rcases List.mem_cons.mp hc with h1 | h1
    · subst h1
      have hmem : rawOfBody g b ∈ applyAction raws (SyncAction.create k g b) :=
        List.mem_append.mpr (Or.inr (List.mem_singleton.mpr rfl))
      obtain ⟨r', hr', hg'⟩ := applyActions_nodelete_gid_surv t _ _
        (fun x hx => hND x (List.mem_cons.mpr (Or.inr hx))) hmem
      exact ⟨r', hr', hg'⟩
    · exact ih (applyAction raws a) k g b
        (fun x hx => hND x (List.mem_cons.mpr (Or.inr hx))) h1

theorem applyActions_gid_prov :
    ∀ (acts : List SyncAction) (raws : List RawGEvent) (r' : RawGEvent),
      r' ∈ applyActions raws acts →
      (∃ r, r ∈ raws ∧ r'.gid = r.gid) ∨
        ∃ a, a ∈ acts ∧ r'.gid = a.gidOf ∧ a.isDelete = false := by
  intro acts
  induction acts with
  | nil => intro raws r' h; exact Or.inl ⟨r', h, rfl⟩
  | cons a t ih =>
    intro raws r' h
    rw [applyActions_cons] at h
    rcases ih (applyAction raws a) r' h with ⟨r, hr, hg⟩ | ⟨a', ha', rest⟩
    · cases a with
      | delete k g => exact Or.inl ⟨r, (List.mem_filter.mp hr).1, hg⟩
      | create k g b =>
        rcases List.mem_append.mp hr with h'' | h''
        · exact Or.inl ⟨r, h'', hg⟩
        · obtain rfl := List.mem_singleton.mp h''
          exact Or.inr ⟨_, List.mem_cons.mpr (Or.inl rfl), hg, rfl⟩
      | update k g b =>
        obtain ⟨r₀, hr₀, heq⟩ := List.mem_map.mp hr
        refine Or.inl ⟨r₀, hr₀, ?_⟩
        rw [hg, ← heq]
        by_cases hgid : r₀.gid = g
        · rw [if_pos hgid]; rfl
        · rw [if_neg hgid]
      | link k g b =>
        obtain ⟨r₀, hr₀, heq⟩ := List.mem_map.mp hr
        refine Or.inl ⟨r₀, hr₀, ?_⟩
        rw [hg, ← heq]
        by_cases hgid : r₀.gid = g
        · rw [if_pos hgid]; rfl
        · rw [if_neg hgid]
    · exact Or.inr ⟨a', List.mem_cons.mpr (Or.inr ha'), rest⟩

/- ### Groundwork for claim C1: the second run's action counts -/

theorem deletionPass_eq_nil (gids : PyDict EvKey String)
    (nm : PyDict EvKey CalendarEvent) (now : PyDateTime) :
    ∀ emL : PyDict EvKey CalendarEvent,
      (∀ k e, (k, e) ∈ emL → (dictGet nm k).isNone = true →
        (normalize_datetime e.end_time).instant ≤ now.instant) →
      deletionPass gids nm now emL = [] := by
  intro emL
  induction emL with
  | nil => intro _; rfl
  | cons kv t ih =>
    obtain ⟨k, e⟩ := kv
    intro hyp
    rw [deletionPass]
    have htail : deletionPass gids nm now t = [] :=
      ih (fun k' e' hm => hyp k' e' (List.mem_cons.mpr (Or.inr hm)))
    rw [htail]
    by_cases h1 : (dictGet nm k).isNone = true
    · rw [if_pos h1,
        if_pos (hyp k e (List.mem_cons.mpr (Or.inl rfl)) h1)]
      rfl
    · rw [if_neg h1]
      rfl

theorem updatesFor_link_extra1 (k : EvKey) (mapping : List String)
    (prop : CalendarEvent → Option String) (k₀ : EvKey) (e : CalendarEvent)
    (g : String) (b : GBody) :
    (List.filter (SyncAction.isUpdateFor k)
      (if k₀.1 = "hipcamp" then
        if k₀.2 ∈ mapping then []
        else if pyTruthy (prop e) = true then
          [SyncAction.link k₀ g (enrichBody b ((prop e).getD ""))]
        else []
      else [])) = [] := by
  by_cases h1 : k₀.1 = "hipcamp"
  · rw [if_pos h1]
    by_cases h2 : k₀.2 ∈ mapping
    · rw [if_pos h2]; rfl
    · rw [if_neg h2]
      by_cases h3 : pyTruthy (prop e) = true
      · rw [if_pos h3]
        simp [SyncAction.isUpdateFor]
      · rw [if_neg h3]; rfl
  · rw [if_neg h1]; rfl

theorem upsertPass_counts (mapping : List String)
    (prop : CalendarEvent → Option String) (now : PyDateTime)
    (em : PyDict EvKey CalendarEvent) :
    ∀ (l : PyDict EvKey CalendarEvent) (gids : PyDict EvKey String) (n : Nat),
      (∀ k e, (k, e) ∈ l → (dictGet em k).isSome = true ∧
        pyTruthy (dictGet gids k) = true ∧
        now.instant < (normalize_datetime e.end_time).instant) →
      (∀ a ∈ upsertPass mapping prop now em l gids n, a.isCreate = false) ∧
      (∀ k, updatesFor k (upsertPass mapping prop now em l gids n) =
        (dictKeys l).count k) := by
  intro l
  induction l with
  | nil =>
    intro gids n _
    exact ⟨fun a h => by simp [upsertPass] at h,
      fun k => by simp [upsertPass, updatesFor, dictKeys]⟩
  | cons kv t ih =>
    obtain ⟨k₀, e₀⟩ := kv
    intro gids n hyp
    obtain ⟨hem, hg, hlt⟩ := hyp k₀ e₀ (List.mem_cons.mpr (Or.inl rfl))
    have hypt : ∀ k e, (k, e) ∈ t → (dictGet em k).isSome = true ∧
        pyTruthy (dictGet gids k) = true ∧
        now.instant < (normalize_datetime e.end_time).instant :=
      fun k e hm => hyp k e (List.mem_cons.mpr (Or.inr hm))
    have ihr := ih gids n hypt
    have hshape : upsertPass mapping prop now em ((k₀, e₀) :: t) gids n =
        SyncAction.update k₀ ((dictGet gids k₀).getD "")
            (buildBody k₀.1 k₀.2 e₀) ::
          ((if k₀.1 = "hipcamp" then
              if k₀.2 ∈ mapping then []
              else if pyTruthy (prop e₀) = true then
                [SyncAction.link k₀ ((dictGet gids k₀).getD "")
                  (enrichBody (buildBody k₀.1 k₀.2 e₀) ((prop e₀).getD ""))]
              else []
            else []) ++ upsertPass mapping prop now em t gids n) := by
      rw [upsertPass, if_neg (not_le.mpr hlt)]
      simp only []
      rw [if_pos hem, if_pos hg]
    constructor
    · intro a ha
      rw [hshape] at ha
      rcases List.mem_cons.mp ha with h1 | h1
      · subst h1; rfl
      · rcases List.mem_append.mp h1 with h2 | h2
        · by_cases hc1 : k₀.1 = "hipcamp"
          · rw [if_pos hc1] at h2
            by_cases hc2 : k₀.2 ∈ mapping
            · rw [if_pos hc2] at h2
              simp at h2
            · rw [if_neg hc2] at h2
              by_cases hc3 : pyTruthy (prop e₀) = true
              · rw [if_pos hc3] at h2
                obtain rfl := List.mem_singleton.mp h2
                rfl
              · rw [if_neg hc3] at h2
                simp at h2
          · rw [if_neg hc1] at h2
            simp at h2
        · exact ihr.1 a h2
    · intro k
      rw [hshape]
      unfold updatesFor
      rw [List.filter_cons, List.filter_append, updatesFor_link_extra1,
        List.nil_append]
      have hcount : (dictKeys ((k₀, e₀) :: t)).count k =
          (if k₀ = k then 1 else 0) + (dictKeys t).count k := by
        simp only [dictKeys, List.map_cons, List.count_cons]
        by_cases hk : k₀ = k
        · simp [hk]
          omega
        · simp [hk, Ne.symm hk]
      rw [hcount]
      have hupd := ihr.2 k
      unfold updatesFor at hupd
      by_cases hk : k₀ = k
      · have hcond : SyncAction.isUpdateFor k (SyncAction.update k₀
            ((dictGet gids k₀).getD "") (buildBody k₀.1 k₀.2 e₀)) = true := by
          simp [SyncAction.isUpdateFor, hk]
        rw [if_pos hcond, List.length_cons, hupd, if_pos hk]
        omega
      · have hcond : SyncAction.isUpdateFor k (SyncAction.update k₀
            ((dictGet gids k₀).getD "") (buildBody k₀.1 k₀.2 e₀)) = false := by
          simp [SyncAction.isUpdateFor, hk]
        rw [if_neg (by simp [hcond]), hupd, if_neg hk]
        omega

theorem upsert_action_body_tracked (mapping : List String)
    (prop : CalendarEvent → Option String) (now : PyDateTime)
    (em : PyDict EvKey CalendarEvent) (l : PyDict EvKey CalendarEvent)
    (gids : PyDict EvKey String) (n : Nat)
    (hlprops : ∀ k e, (k, e) ∈ l →
      (k.1 = "hipcamp" ∨ k.1 = "checkfront") ∧ k.2 ≠ "")
    (a : SyncAction) (haU : a ∈ upsertPass mapping prop now em l gids n)
    (k₁ : EvKey) (g₁ : String) (b₁ : GBody)
    (hshape : a = SyncAction.create k₁ g₁ b₁ ∨
      a = SyncAction.update k₁ g₁ b₁ ∨ a = SyncAction.link k₁ g₁ b₁)
    (g : String) :
    pyTruthy (readBackEvent (rawOfBody g b₁)).source_id = true ∧
      eventKey (readBackEvent (rawOfBody g b₁)) = k₁ ∧
      k₁ ∈ dictKeys l := by
  obtain ⟨k₂, e₂, hm₂, _, hdisj⟩ := mem_upsertPass _ _ _ _ _ _ _ _ haU
  have hmkey : k₂ ∈ dictKeys l := List.mem_map.mpr ⟨(k₂, e₂), hm₂, rfl⟩
  obtain ⟨hsrc, hne2⟩ := hlprops k₂ e₂ hm₂
  rcases hshape with rfl | rfl | rfl
  · rcases hdisj with ⟨g₃, heq3, _, _⟩ | ⟨g₃, heq3, _⟩ | ⟨g₃, c₃, heq3, _⟩
    · obtain ⟨hk, _, hb⟩ := SyncAction.create.injEq .. ▸ heq3
      subst hk
      obtain ⟨h1, h2⟩ := readBack_rawOfBody_tracked g k₁.1 k₁.2 e₂ hsrc hne2
        b₁ (Or.inl hb)
      exact ⟨h1, h2, hmkey⟩
    · simp at heq3
    · simp at heq3
  · rcases hdisj with ⟨g₃, heq3, _, _⟩ | ⟨g₃, heq3, _⟩ | ⟨g₃, c₃, heq3, _⟩
    · simp at heq3
    · obtain ⟨hk, _, hb⟩ := SyncAction.update.injEq .. ▸ heq3
      subst hk
      obtain ⟨h1, h2⟩ := readBack_rawOfBody_tracked g k₁.1 k₁.2 e₂ hsrc hne2
        b₁ (Or.inl hb)
      exact ⟨h1, h2, hmkey⟩
    · simp at heq3
  · rcases hdisj with ⟨g₃, heq3, _, _⟩ | ⟨g₃, heq3, _⟩ | ⟨g₃, c₃, heq3, hhc⟩
    · simp at heq3
    · simp at heq3
    · obtain ⟨hk, _, hb⟩ := SyncAction.link.injEq .. ▸ heq3
      subst hk
      obtain ⟨h1, h2⟩ := readBack_rawOfBody_tracked g k₁.1 k₁.2 e₂ hsrc hne2
        b₁ (Or.inr ⟨hhc, c₃, hb⟩)
      exact ⟨h1, h2, hmkey⟩

theorem count_eq_one_of_nodup_mem (l : List EvKey) (hnd : l.Nodup) (k : EvKey)
    (h : k ∈ l) : l.count k = 1 := by
  induction l with
  | nil => simp at h
  | cons b t ih =>
    rw [List.nodup_cons] at hnd
    rw [List.count_cons]
    rcases List.mem_cons.mp h with h1 | h1
    · subst h1
      have hz : t.count k = 0 := List.count_eq_zero.mpr hnd.1
      rw [hz]
      simp
    · have hbk : ¬ (b == k) = true := by
        intro hc
        have hbk2 : b = k := by simpa using hc
        exact hnd.1 (by rw [hbk2]; exact h1)
      rw [ih hnd.2 h1, if_neg hbk]

theorem count_eq_zero_of_not_mem (l : List EvKey) (k : EvKey)
    (h : k ∉ l) : l.count k = 0 :=
  List.count_eq_zero.mpr h

/-- **C1.**  Re-running the reconciliation with unchanged source data (same
feeds and same `now`) against the calendar state produced by a completed
previous run emits zero CREATE and zero DELETE operations, and exactly one
(unconditional-refresh) UPDATE per `(source, source_id)` key of the source
map — so a rerun never produces duplicate calendar entries.  The
propagation-linkage writes (`link`) are modelled separately from the refresh
UPDATE the claim counts.  Hypotheses: the backend's event ids are unique,
non-empty and do not collide with the ids it assigns to fresh inserts, and
the prior calendar respects the spec's identity invariant (at most one entry
per tracked `(source, source_id)` key). -/
theorem C1_rerun_idempotent (S : List RawGEvent) (hip cf : List CalendarEvent)
    (now : PyDateTime) (m1 m2 : List String)
    (p1 p2 : CalendarEvent → Option String)
    (hgid : (S.map RawGEvent.gid).Nodup)
    (hne : ∀ r ∈ S, r.gid ≠ "")
    (hfresh : ∀ r ∈ S, hasFreshPrefix r.gid = false)
    (hkeys : (trackedKeys (readBack S)).Nodup) :
    (∀ a ∈ runSync (readBack (applyActions S
        (runSync (readBack S) hip cf now m1 p1))) hip cf now m2 p2,
      a.isCreate = false ∧ a.isDelete = false) ∧
    (∀ k, (dictGet (newEventsMap hip cf now) k).isSome = true →
      updatesFor k (runSync (readBack (applyActions S
        (runSync (readBack S) hip cf now m1 p1))) hip cf now m2 p2) = 1) ∧
    (∀ k, (dictGet (newEventsMap hip cf now) k).isSome = false →
      updatesFor k (runSync (readBack (applyActions S
        (runSync (readBack S) hip cf now m1 p1))) hip cf now m2 p2) = 0) := by
  set RB : List CalendarEvent := readBack S with hRBdef
  set nm : PyDict EvKey CalendarEvent := newEventsMap hip cf now with hnmdef
  set em1 : PyDict EvKey CalendarEvent := (buildExistingMaps RB).1 with hem1def
  set gids1 : PyDict EvKey String := (buildExistingMaps RB).2 with hgids1def
  set D : List SyncAction := deletionPass gids1 nm now em1 with hDdef
  set U : List SyncAction := upsertPass m1 p1 now em1 nm gids1 0 with hUdef
  have hA1 : runSync RB hip cf now m1 p1 = D ++ U := rfl
  rw [hA1, applyActions_append]
  set SD : List RawGEvent := applyActions S D with hSDdef
  set S1 : List RawGEvent := applyActions SD U with hS1def
  set RB2 : List CalendarEvent := readBack S1 with hRB2def
  set em2 : PyDict EvKey CalendarEvent := (buildExistingMaps RB2).1 with hem2def
  set gids2 : PyDict EvKey String := (buildExistingMaps RB2).2 with hgids2def
  set D2 : List SyncAction := deletionPass gids2 nm now em2 with hD2def
  set U2 : List SyncAction := upsertPass m2 p2 now em2 nm gids2 0 with hU2def
  have hA2 : runSync RB2 hip cf now m2 p2 = D2 ++ U2 := rfl
  rw [hA2]
  -- basic facts
  have hDdel : ∀ a ∈ D, a.isDelete = true :=
    deletionPass_all_delete gids1 nm now em1
  have hUnodel : ∀ a ∈ U, a.isDelete = false :=
    upsertPass_no_delete m1 p1 now em1 nm gids1 0
  have hnmnodup : (dictKeys nm).Nodup := newEventsMap_keys_nodup hip cf now
  have hnmprops : ∀ k e, (k, e) ∈ nm →
      (k.1 = "hipcamp" ∨ k.1 = "checkfront") ∧ k.2 ≠ "" := by
    intro k e hm
    obtain ⟨ht, hk2, _, hsrc⟩ := mem_newEventsMap hip cf now (k, e) hm
    have ht' : pyTruthy e.source_id = true := ht
    have hk2' : k.2 = e.source_id.getD "" := hk2
    constructor
    · rcases hsrc with ⟨h1, _⟩ | ⟨h1, _⟩
      · exact Or.inl h1
      · exact Or.inr h1
    · obtain ⟨s, hs, hsne⟩ := (pyTruthy_iff _).mp ht'
      rw [hk2', hs]
      simpa using hsne
  have hgids1raw : ∀ k' g', dictGet gids1 k' = some g' →
      ∃ r0, r0 ∈ S ∧ r0.gid = g' ∧
        pyTruthy (readBackEvent r0).source_id = true ∧
        eventKey (readBackEvent r0) = k' := by
    intro k' g' hg'
    obtain ⟨e0, he0, ht0, hgoog0, hne0, hk0⟩ :=
      buildExistingMaps_mem2 RB (k', g') (mem_of_dictGet_eq_some _ _ _ hg')
    have hgoog0' : e0.google_event_id = some g' := hgoog0
    have hk0' : k' = eventKey e0 := hk0
    obtain ⟨r0, hr0, hre⟩ := List.mem_map.mp he0
    have hr0g : r0.gid = g' := by
      have h3 : (readBackEvent r0).google_event_id = some g' := by
        rw [hre]; exact hgoog0'
      exact Option.some_injective _ h3
    exact ⟨r0, hr0, hr0g, by rw [hre]; exact ht0,
      by rw [hre]; exact hk0'.symm⟩
  have hgids1nf : ∀ k' g', dictGet gids1 k' = some g' →
      hasFreshPrefix g' = false := by
    intro k' g' hg'
    obtain ⟨r0, hr0, hr0g, _, _⟩ := hgids1raw k' g' hg'
    rw [← hr0g]
    exact hfresh r0 hr0
  have hnonfresh := upsertPass_nonfresh_gid m1 p1 now em1
    (fun k' g' => dictGet gids1 k' = some g') nm gids1 0
    (fun k' g' hg' _ => hg')
  -- every event of the new calendar state has a non-empty id
  have hS1ne : ∀ r ∈ S1, r.gid ≠ "" := by
    intro r hr
    have hr' : r ∈ applyActions S (D ++ U) := by
      rw [applyActions_append]; exact hr
    rcases applyActions_gid_prov (D ++ U) S r hr' with ⟨r0, hr0, hg0⟩ |
      ⟨a, ha, hg0, hand⟩
    · rw [hg0]; exact hne r0 hr0
    · rcases List.mem_append.mp ha with haD | haU
      · rw [hDdel a haD] at hand
        simp at hand
      · have hprov := upsertPass_gid_prov m1 p1 now em1
          (fun g' => g' ≠ "") nm gids1 0
          (fun k' g' hg' => Or.inl (by
            obtain ⟨r0, hr0S, hr0g, _, _⟩ := hgids1raw k' g' hg'
            rw [← hr0g]
            exact hne r0 hr0S)) a haU
        rcases hprov with h1 | h1
        · rw [hg0]; exact h1
        · rw [hg0]; exact hasFreshPrefix_ne_empty _ h1
  -- per-key existence of a tracked entry in the new calendar state
  have PTRACK : ∀ k env, dictGet nm k = some env →
      ∃ r1, r1 ∈ S1 ∧ pyTruthy (readBackEvent r1).source_id = true ∧
        eventKey (readBackEvent r1) = k := by
    intro k env hknm
    obtain ⟨hk1, hk2⟩ := hnmprops k env (mem_of_dictGet_eq_some _ _ _ hknm)
    have hlt : now.instant < (normalize_datetime env.end_time).instant :=
      (newEventsMap_get_spec hip cf now k env hknm).2.2.1
    by_cases hemk : (dictGet em1 k).isSome = true
    · -- the key was already tracked: it receives the refresh update
      obtain ⟨ev, hev⟩ := Option.isSome_iff_exists.mp hemk
      obtain ⟨hevRB, hevt, hevk⟩ :=
        buildExistingMaps_mem1 RB (k, ev) (mem_of_dictGet_eq_some _ _ _ hev)
      have hevt' : pyTruthy ev.source_id = true := hevt
      have hevk' : k = eventKey ev := hevk
      obtain ⟨rstar, hrstar, hreq0⟩ := List.mem_map.mp hevRB
      have hreq : readBackEvent rstar = ev := hreq0
      have hgoog : ev.google_event_id = some rstar.gid := by
        rw [← hreq]; rfl
      have hgidne : rstar.gid ≠ "" := hne rstar hrstar
      have hgt : pyTruthy ev.google_event_id = true := by
        rw [hgoog]; exact (pyTruthy_some_iff _).mpr hgidne
      have hg1 : dictGet gids1 k = some rstar.gid := by
        have h2 := buildExistingMaps_get2_unique RB hkeys ev hevRB hevt' hgt
        rw [hgoog] at h2
        rw [hevk']
        exact h2
      have hnotdel : ∀ a ∈ D, a.gidOf ≠ rstar.gid := by
        intro a ha heq
        obtain ⟨k', e', g', hm', haeq, hnone', hlt', hg', hgne'⟩ :=
          mem_deletionPass _ _ _ _ _ ha
        subst haeq
        rw [SyncAction.gidOf] at heq
        subst heq
        obtain ⟨r0, hr0S, hr0g, hr0t, hr0k⟩ := hgids1raw k' _ hg'
        obtain rfl := nodup_gid_unique S hgid r0 rstar hr0S hrstar hr0g
        have hkk : k' = k := by rw [← hr0k, hreq, ← hevk']
        rw [hkk] at hnone'
        have hcontra := hknm.symm.trans hnone'
        simp at hcontra
      have hrstarSD : rstar ∈ SD :=
        applyActions_deletes_keep D S rstar hDdel hrstar hnotdel
      obtain ⟨r1, hr1, hr1g⟩ :=
        applyActions_nodelete_gid_surv U SD rstar hUnodel hrstarSD
      refine ⟨r1, hr1, ?_⟩
      rcases applyActions_body_prov U SD r1 hr1 with hin |
        ⟨a, haU, k₁, g₁, b₁, hshape, hbody⟩
      · have hr1S : r1 ∈ S := applyActions_deletes_subset D S hDdel r1 hin
        obtain rfl := nodup_gid_unique S hgid r1 rstar hr1S hrstar hr1g
        rw [hreq]
        exact ⟨hevt', hevk'.symm⟩
      · have hg₁ : g₁ = rstar.gid := by
          rw [← hr1g, hbody]
          rfl
        have hagid : a.gidOf = g₁ := by
          rcases hshape with rfl | rfl | rfl <;> rfl
        have hanf : hasFreshPrefix a.gidOf = false := by
          rw [hagid, hg₁]; exact hfresh rstar hrstar
        obtain ⟨hPa, _⟩ := hnonfresh a haU hanf
        obtain ⟨r0, hr0S, hr0g, hr0t, hr0k⟩ := hgids1raw a.keyOf a.gidOf hPa
        obtain rfl := nodup_gid_unique S hgid r0 rstar hr0S hrstar
          (by rw [hr0g, hagid, hg₁])
        have hak : a.keyOf = k := by rw [← hr0k, hreq, ← hevk']
        have hk₁k : k₁ = k := by
          rw [← hak]
          rcases hshape with rfl | rfl | rfl <;> rfl
        subst hk₁k
        obtain ⟨h1, h2, _⟩ := upsert_action_body_tracked m1 p1 now em1 nm
          gids1 0 hnmprops a haU k₁ g₁ b₁ hshape g₁
        rw [hbody]
        exact ⟨h1, h2⟩
    · -- new key: it is inserted with a fresh id
      have hemk' : dictGet em1 k = none := by
        cases h : dictGet em1 k with
        | none => rfl
        | some v => rw [h] at hemk; simp at hemk
      obtain ⟨n', hcr⟩ := upsertPass_emits_create m1 p1 now em1 k env nm
        gids1 0 (mem_of_dictGet_eq_some _ _ _ hknm) hnmnodup hemk' hlt
      obtain ⟨r1, hr1, hr1g⟩ := applyActions_create_surv U SD k (freshGid n')
        (buildBody k.1 k.2 env) hUnodel hcr
      refine ⟨r1, hr1, ?_⟩
      rcases applyActions_body_prov U SD r1 hr1 with hin |
        ⟨a, haU, k₁, g₁, b₁, hshape, hbody⟩
      · have hr1S : r1 ∈ S := applyActions_deletes_subset D S hDdel r1 hin
        have hcontra := hfresh r1 hr1S
        rw [hr1g, hasFreshPrefix_freshGid] at hcontra
        simp at hcontra
      · have hg₁ : g₁ = freshGid n' := by
          rw [← hr1g, hbody]
          rfl
        have hagid : a.gidOf = g₁ := by
          rcases hshape with rfl | rfl | rfl <;> rfl
        have hkey : a.keyOf = k := by
          have h4 := upsertPass_fresh_unique m1 p1 now em1 nm gids1 0
            hnmnodup (fun k' _ g' hg' => hgids1nf k' g' hg') a
            (SyncAction.create k (freshGid n') (buildBody k.1 k.2 env))
            haU hcr n' (by rw [hagid, hg₁]) rfl
          rw [h4]
          rfl
        have hk₁k : k₁ = k := by
          rw [← hkey]
          rcases hshape with rfl | rfl | rfl <;> rfl
        subst hk₁k
        obtain ⟨h1, h2, _⟩ := upsert_action_body_tracked m1 p1 now em1 nm
          gids1 0 hnmprops a haU k₁ g₁ b₁ hshape g₁
        rw [hbody]
        exact ⟨h1, h2⟩
  -- the second run's existing maps cover every source key
  have hP1 : ∀ k, (dictGet nm k).isSome = true →
      (dictGet em2 k).isSome = true ∧ pyTruthy (dictGet gids2 k) = true := by
    intro k hk
    obtain ⟨env, henv⟩ := Option.isSome_iff_exists.mp hk
    obtain ⟨r1, hr1, ht1, hk1⟩ := PTRACK k env henv
    have hin : readBackEvent r1 ∈ RB2 := List.mem_map.mpr ⟨r1, hr1, rfl⟩
    have hgt : pyTruthy (readBackEvent r1).google_event_id = true := by
      show pyTruthy (some r1.gid) = true
      exact (pyTruthy_some_iff _).mpr (hS1ne r1 hr1)
    constructor
    · exact buildExistingMaps_foldl_isSome1 RB2 ([], []) k
        (Or.inr ⟨readBackEvent r1, hin, ht1, hk1⟩)
    · have hs2 := buildExistingMaps_foldl_isSome2 RB2 ([], []) k
        (Or.inr ⟨readBackEvent r1, hin, ht1, hgt, hk1⟩)
      have hs2x : (dictGet gids2 k).isSome = true := hs2
      obtain ⟨g2, hg2⟩ := Option.isSome_iff_exists.mp hs2x
      obtain ⟨e0, _, _, _, hg2ne, _⟩ := buildExistingMaps_mem2 RB2 (k, g2)
        (mem_of_dictGet_eq_some _ _ _ hg2)
      rw [hg2]
      exact (pyTruthy_some_iff _).mpr hg2ne
  -- tracked leftovers with keys outside the source map have already ended
  have hP2 : ∀ k e2, (k, e2) ∈ em2 → (dictGet nm k).isNone = true →
      (normalize_datetime e2.end_time).instant ≤ now.instant := by
    intro k e2 hm hknone
    obtain ⟨he2RB2, ht2, hk2eq⟩ := buildExistingMaps_mem1 RB2 (k, e2) hm
    have ht2' : pyTruthy e2.source_id = true := ht2
    have hk2eq' : k = eventKey e2 := hk2eq
    obtain ⟨r1, hr1, hre0⟩ := List.mem_map.mp he2RB2
    have hre : readBackEvent r1 = e2 := hre0
    rcases applyActions_body_prov U SD r1 hr1 with hin |
      ⟨a, haU, k₁, g₁, b₁, hshape, hbody⟩
    · -- a surviving original entry: had it not ended, run one would have
      -- deleted it
      have hr1S : r1 ∈ S := applyActions_deletes_subset D S hDdel r1 hin
      by_contra hgt
      push_neg at hgt
      have hRBm : readBackEvent r1 ∈ RB := List.mem_map.mpr ⟨r1, hr1S, rfl⟩
      have ht1 : pyTruthy (readBackEvent r1).source_id = true := by
        rw [hre]; exact ht2'
      have hkeyeq : eventKey (readBackEvent r1) = k := by
        rw [hre]; exact hk2eq'.symm
      have hget1 : dictGet em1 k = some (readBackEvent r1) := by
        rw [← hkeyeq]
        exact buildExistingMaps_get1_unique RB hkeys _ hRBm ht1
      have hgoogt : pyTruthy (readBackEvent r1).google_event_id = true := by
        show pyTruthy (some r1.gid) = true
        exact (pyTruthy_some_iff _).mpr (hne r1 hr1S)
      have hget2 : dictGet gids1 k = some r1.gid := by
        rw [← hkeyeq]
        exact buildExistingMaps_get2_unique RB hkeys _ hRBm ht1 hgoogt
      have hend : now.instant <
          (normalize_datetime (readBackEvent r1).end_time).instant := by
        rw [hre]; exact hgt
      have hdel : SyncAction.delete k r1.gid ∈ D :=
        deletionPass_emits gids1 nm now k (readBackEvent r1) r1.gid em1
          (mem_of_dictGet_eq_some _ _ _ hget1)
          (Option.isNone_iff_eq_none.mp hknone) hend hget2 (hne r1 hr1S)
      have hx := applyActions_deletes_excl D S r1 hDdel hin
        (SyncAction.delete k r1.gid) hdel
      rw [SyncAction.gidOf] at hx
      exact hx rfl
    · -- a body written by run one: its key is a source key, contradiction
      exfalso
      obtain ⟨_, h2, h3⟩ := upsert_action_body_tracked m1 p1 now em1 nm
        gids1 0 hnmprops a haU k₁ g₁ b₁ hshape g₁
      have hkk : k = k₁ := by
        rw [hk2eq', ← hre, hbody]
        exact h2
      rw [hkk] at hknone
      have hsome := dictGet_isSome_of_mem_keys nm k₁ h3
      rw [Option.isNone_iff_eq_none] at hknone
      rw [hknone] at hsome
      simp at hsome
  -- conclusions
  have hhyp2 : ∀ k e, (k, e) ∈ nm → (dictGet em2 k).isSome = true ∧
      pyTruthy (dictGet gids2 k) = true ∧
      now.instant < (normalize_datetime e.end_time).instant := by
    intro k e hm
    have hks : (dictGet nm k).isSome = true :=
      dictGet_isSome_of_mem_keys nm k (List.mem_map.mpr ⟨(k, e), hm, rfl⟩)
    obtain ⟨h1, h2⟩ := hP1 k hks
    exact ⟨h1, h2, (mem_newEventsMap hip cf now (k, e) hm).2.2.1⟩
  have hD2nil : D2 = [] := deletionPass_eq_nil gids2 nm now em2 hP2
  rw [hD2nil, List.nil_append]
  have hcounts := upsertPass_counts m2 p2 now em2 nm gids2 0 hhyp2
  refine ⟨?_, ?_, ?_⟩
  · intro a ha
    exact ⟨hcounts.1 a ha, upsertPass_no_delete m2 p2 now em2 nm gids2 0 a ha⟩
  · intro k hk
    rw [hcounts.2 k]
    exact count_eq_one_of_nodup_mem (dictKeys nm) hnmnodup k
      (mem_keys_of_dictGet_isSome nm k hk)
  · intro k hk
    rw [hcounts.2 k]
    refine count_eq_zero_of_not_mem (dictKeys nm) k ?_
    intro hmem
    rw [dictGet_isSome_of_mem_keys nm k hmem] at hk
    simp at hk

/-- Witness for C1: one synced HipCamp event already in the calendar; the
rerun issues exactly one refresh update for its key. -/
theorem C1_witness :
    (trackedKeys (readBack
      [{ gid := "gidA", summary := "HT1 - A Hipcamp",
         description := some "Booking ID: #7", gstart := .date 0,
         gend := .date 3,
         props := [("hipcamp_booking_id", "7"),
                   ("synced_by_script", "true")] }])).Nodup ∧
    (dictGet (newEventsMap
        [{ start_time := .date 0, end_time := .date 3, summary := "HT1 - A",
           description := some "Booking ID: #7", source := "hipcamp",
           source_id := some "7", google_event_id := none }] []
        { clock := 0, tz := some 0 }) ("hipcamp", "7")).isSome = true ∧
    updatesFor ("hipcamp", "7")
      (runSync (readBack (applyActions
        [{ gid := "gidA", summary := "HT1 - A Hipcamp",
           description := some "Booking ID: #7", gstart := .date 0,
           gend := .date 3,
           props := [("hipcamp_booking_id", "7"),
                     ("synced_by_script", "true")] }]
        (runSync (readBack
          [{ gid := "gidA", summary := "HT1 - A Hipcamp",
             description := some "Booking ID: #7", gstart := .date 0,
             gend := .date 3,
             props := [("hipcamp_booking_id", "7"),
                       ("synced_by_script", "true")] }])
          [{ start_time := .date 0, end_time := .date 3, summary := "HT1 - A",
             description := some "Booking ID: #7", source := "hipcamp",
             source_id := some "7", google_event_id := none }] []
          { clock := 0, tz := some 0 } [] (fun _ => none))))
        [{ start_time := .date 0, end_time := .date 3, summary := "HT1 - A",
           description := some "Booking ID: #7", source := "hipcamp",
           source_id := some "7", google_event_id := none }] []
        { clock := 0, tz := some 0 } [] (fun _ => none)) = 1 :=
  ⟨by decide, by decide,
    (C1_rerun_idempotent
      [{ gid := "gidA", summary := "HT1 - A Hipcamp",
         description := some "Booking ID: #7", gstart := .date 0,
         gend := .date 3,
         props := [("hipcamp_booking_id", "7"),
                   ("synced_by_script", "true")] }]
      [{ start_time := .date 0, end_time := .date 3, summary := "HT1 - A",
         description := some "Booking ID: #7", source := "hipcamp",
         source_id := some "7", google_event_id := none }] []
      { clock := 0, tz := some 0 } [] [] (fun _ => none) (fun _ => none)
      (by decide) (by decide) (by decide) (by decide)).2.1
      ("hipcamp", "7") (by decide)⟩
